import Mathlib

/-!
# Motion module: power controller and packet decoder

A shallow embedding of `src/motion_module.cpp` (namespace `rsimpl`):

* `motion_module_state::requested_state`, `motion_module_control::impose`,
  `enter_state`, `set_control` and the two `toggle_*` forwarders, as functions
  in a state-and-exception monad over the controller state and the ordered
  trace of hardware actions;
* `motion_module_parser::operator()`, `parse_timestamp` and `parse_motion`, as
  functions over a byte buffer with checked reads.

Conventions.  Values of the enums `mm_state` and `mm_request` are carried as
their integer codes (`Int`), because the source does arithmetic on them
(`(int)request`) and casts the result back.  A C++ exception
is the `error` branch of the result, and the controller state that is returned
next to it is the state at the moment of the throw (nothing is rolled back).
-/

namespace MotionModule

/-! ## Power controller: data -/

/-- Modelled from the spec: the enumerators of `mm_state` are declared in
`motion_module.h`; the four states are consecutive integers starting at Idle. -/
def mm_idle : Int := 0
/-- Modelled from the spec: `Streaming` is the state after `Idle`. -/
def mm_streaming : Int := 1
/-- Modelled from the spec: `Eventing` is the state after `Streaming`. -/
def mm_eventing : Int := 2
/-- Modelled from the spec: `FullLoad` is the last of the four states. -/
def mm_full_load : Int := 3

/-- Modelled from the spec: the enumerators of `mm_request` are declared in
`motion_module.h`; VideoOutput has weight 1 (and `set_control` reports the valid
range as `[1,2]`). -/
def mm_video_output : Int := 1
/-- Modelled from the spec: EventsOutput has weight 2. -/
def mm_events_output : Int := 2

/-- Modelled from the spec: `motion_module_state::valid` is defined in
`motion_module.h`; a candidate is accepted exactly when it is one of the four
defined states. -/
def valid (check_state : Int) : Bool :=
  decide (check_state = mm_idle ∨ check_state = mm_streaming ∨
          check_state = mm_eventing ∨ check_state = mm_full_load)

/-- Opcode `MMPWR` of `CX3_GrossTete_MonitorCommand`. -/
def MMPWR : Nat := 0x0A
/-- Opcode `MM_ACTIVATE` of `CX3_GrossTete_MonitorCommand`. -/
def MM_ACTIVATE : Nat := 0x0E

/-- One observable hardware action of the controller. -/
inductive HwAction where
  /-- A call of `perform_and_send_monitor_command` with the command opcode, its
  `Param1` and the USB handle index. -/
  | monitor_command (opcode : Nat) (param1 : Nat) (handle : Nat)
  /-- A call of `std::this_thread::sleep_for` with a number of milliseconds. -/
  | sleep_for (ms : Nat)
deriving DecidableEq, Repr

/-- The exceptions the controller can raise. -/
inductive CtlError where
  /-- The `std::logic_error("ABC")` of `impose`. -/
  | invalid_transition
  /-- The `std::logic_error` of the `default` branch of `set_control`. -/
  | unsupported_control (request : Int)
  /-- Whatever `perform_and_send_monitor_command` throws. -/
  | transport
deriving DecidableEq, Repr

/-- The controller (`state_handler.state`) together with the hardware actions
performed so far, oldest first. -/
structure Ctl where
  state : Int
  trace : List HwAction
deriving DecidableEq, Repr

/-- The external transport `hw_mon::perform_and_send_monitor_command`: given
the actions performed so far and the command being sent, whether the send
succeeds (`true`) or throws (`false`). -/
abbrev Transport := List HwAction → HwAction → Bool

/-- A transport on which every send succeeds. -/
def reliable : Transport := fun _ _ => true

/-- Computations of the controller: a result or an exception, and the
controller as it is left in either case. -/
def CtlM (α : Type) : Type := Ctl → Except CtlError α × Ctl

/-- Sequencing: an exception stops the computation and keeps the controller as
it was when the exception was raised. -/
def CtlM.bind {α β : Type} (m : CtlM α) (f : α → CtlM β) : CtlM β := fun c =>
  match m c with
  | (Except.ok a, c1) => f a c1
  | (Except.error e, c1) => (Except.error e, c1)

instance : Monad CtlM where
  pure a := fun c => (Except.ok a, c)
  bind := CtlM.bind

/-- A `throw`. -/
def raise {α : Type} (e : CtlError) : CtlM α := fun c => (Except.error e, c)

/-- Read `state_handler.state`. -/
def getState : CtlM Int := fun c => (Except.ok c.state, c)

/-- Assign `state_handler.state`. -/
def setState (s : Int) : CtlM Unit := fun c => (Except.ok (), { c with state := s })

/-- The call `std::this_thread::sleep_for(std::chrono::milliseconds(ms))`. -/
def sleep_for (ms : Nat) : CtlM Unit := fun c =>
  (Except.ok (), { c with trace := c.trace ++ [HwAction.sleep_for ms] })

/-- The call `perform_and_send_monitor_command(*device_handle, mutex, handle, cmd)`:
the command is issued, and the call throws when the transport fails. -/
def perform_and_send_monitor_command (dev : Transport) (handle : Nat) (opcode param1 : Nat) :
    CtlM Unit := fun c =>
  let a := HwAction.monitor_command opcode param1 handle
  let c1 : Ctl := { c with trace := c.trace ++ [a] }
  if dev c.trace a then (Except.ok (), c1) else (Except.error CtlError.transport, c1)

/-! ## Power controller: operations -/

/-- The function `motion_module_state::requested_state`.  The cast back to
`mm_state` keeps the integer: from one of the four states the sum lies between -2
and 5, and whether it is one of the four codes is all that is asked of it. -/
def requested_state (state : Int) (request : Int) (on_ : Bool) : Int :=
  let tmp : Int := state
  let tmp := tmp + request * (if on_ then 1 else -1)
  tmp

/-- The function `motion_module_control::set_control`. -/
def set_control (dev : Transport) (request : Int) (on_ : Bool) : CtlM Unit :=
  if request = mm_video_output then
    perform_and_send_monitor_command dev 1 MMPWR (if on_ then 1 else 0)
  else if request = mm_events_output then
    perform_and_send_monitor_command dev 1 MM_ACTIVATE (if on_ then 1 else 0)
  else
    raise (CtlError.unsupported_control request)

/-- The function `motion_module_control::enter_state`. -/
def enter_state (dev : Transport) (new_state : Int) : CtlM Unit := do
  let state ← getState
  if new_state = state then
    pure ()
  else do
    if state = mm_idle then do
      if mm_streaming = new_state then do
        set_control dev mm_video_output true
        sleep_for 2000
      if mm_eventing = new_state then do
        set_control dev mm_video_output true
        set_control dev mm_events_output true
    else if state = mm_streaming then do
      if mm_idle = new_state then do
        set_control dev mm_video_output false
      if mm_full_load = new_state then do
        set_control dev mm_events_output true
    else if state = mm_eventing then do
      if mm_idle = new_state then do
        set_control dev mm_events_output false
    else
      pure ()
    setState new_state

/-- The function `motion_module_control::impose`. -/
def impose (dev : Transport) (request : Int) (on_ : Bool) : CtlM Unit := do
  let new_state := requested_state (← getState) request on_
  if valid new_state then
    enter_state dev new_state
  else
    raise CtlError.invalid_transition

/-- The function `motion_module_control::toggle_motion_module_power`. -/
def toggle_motion_module_power (dev : Transport) (on_ : Bool) : CtlM Unit :=
  impose dev mm_video_output on_

/-- The function `motion_module_control::toggle_motion_module_events`. -/
def toggle_motion_module_events (dev : Transport) (on_ : Bool) : CtlM Unit :=
  impose dev mm_events_output on_

/-- The controller as constructed: `motion_module_state()` sets the state to
Idle, and nothing has been sent yet. -/
def initial : Ctl := { state := mm_idle, trace := [] }

/-- One call from outside: one of the two toggles with its flag. -/
inductive Call where
  | power (on_ : Bool)
  | events (on_ : Bool)
deriving DecidableEq, Repr

/-- Run one call. -/
def Call.run (dev : Transport) : Call → CtlM Unit
  | Call.power b => toggle_motion_module_power dev b
  | Call.events b => toggle_motion_module_events dev b

/-- Run a sequence of calls one after the other; a caller that catches the
exception of a failed call goes on with the controller as the call left it. -/
def runCalls (dev : Transport) : List Call → Ctl → Ctl
  | [], c => c
  | k :: ks, c => runCalls dev ks (k.run dev c).2

/-- The table of the specification: the hardware actions of a transition,
keyed by `(from, to)`. -/
def transitionTable (src dst : Int) : List HwAction :=
  if src = mm_idle ∧ dst = mm_streaming then
    [HwAction.monitor_command MMPWR 1 1, HwAction.sleep_for 2000]
  else if src = mm_idle ∧ dst = mm_eventing then
    [HwAction.monitor_command MMPWR 1 1, HwAction.monitor_command MM_ACTIVATE 1 1]
  else if src = mm_streaming ∧ dst = mm_idle then
    [HwAction.monitor_command MMPWR 0 1]
  else if src = mm_streaming ∧ dst = mm_full_load then
    [HwAction.monitor_command MM_ACTIVATE 1 1]
  else if src = mm_eventing ∧ dst = mm_idle then
    [HwAction.monitor_command MM_ACTIVATE 0 1]
  else
    []

/-- Whether one of the sends among `new`, issued after the history `hist`, was
failed by the transport. -/
def anySendFailed (dev : Transport) : List HwAction → List HwAction → Bool
  | _, [] => false
  | hist, a :: rest =>
    (match a with
      | HwAction.monitor_command _ _ _ => !dev hist a
      | HwAction.sleep_for _ => false) || anySendFailed dev (hist ++ [a]) rest

/-- A transport on which only the first send after construction succeeds. -/
def failsAfterFirst : Transport := fun hist _ => decide (hist = [])

/-! ## Packet decoder: data -/

/-- An `unsigned char`. -/
abbrev Byte := Fin 256

/-- Why a run of the decoder model gives no result: the loop was still running
when the fuel ran out, or a read fell outside the buffer. -/
inductive Stop where
  | out_of_fuel
  | out_of_bounds
deriving DecidableEq, Repr

/-- Struct `rs_timestamp_data`; `source_id` is the integer code of the enum
`rs_event_source`. -/
structure rs_timestamp_data where
  timestamp : Nat
  source_id : Nat
  frame_number : Nat
deriving DecidableEq, Repr

/-- Struct `rs_motion_data`.  The three `float` axes are carried as exact
rationals: the conversions and products of the source are done without
rounding. -/
structure rs_motion_data where
  timestamp_data : rs_timestamp_data
  is_valid : Nat
  axes : List ℚ
deriving DecidableEq, Repr

/-- Struct `motion_event`: the four header fields, the four slots
`imu_packets` and the eight slots `non_imu_packets`. -/
structure motion_event where
  error_state : Nat
  status : Nat
  imu_entries_num : Nat
  non_imu_entries_num : Nat
  imu_packets : List rs_motion_data
  non_imu_packets : List rs_timestamp_data
deriving DecidableEq, Repr

/-- The integer codes of the enumerators `RS_IMU_ACCEL` and `RS_IMU_GYRO` of
`rs_event_source`; the enum is declared outside `motion_module.cpp`, so the two
codes are a parameter of the decoder. -/
structure EventSources where
  RS_IMU_ACCEL : Nat
  RS_IMU_GYRO : Nat
deriving DecidableEq, Repr

/-- Constant `motion_packet_header_size`. -/
def motion_packet_header_size : Nat := 8
/-- Constant `imu_data_entries`. -/
def imu_data_entries : Nat := 4
/-- Constant `imu_entry_size`. -/
def imu_entry_size : Nat := 12
/-- Constant `non_imu_data_entries`. -/
def non_imu_data_entries : Nat := 8
/-- Constant `non_imu_entry_size`. -/
def non_imu_entry_size : Nat := 6
/-- Constant `non_imu_data_offset` (an `unsigned short`). -/
def non_imu_data_offset : Nat :=
  (motion_packet_header_size + imu_data_entries * imu_entry_size) % 65536
/-- Constant `motion_packet_size` (an `unsigned short`). -/
def motion_packet_size : Nat :=
  (non_imu_data_offset + non_imu_data_entries * non_imu_entry_size) % 65536

/-- Constant `gravity` (`9.871f`). -/
def gravity : ℚ := 9.871
/-- Constant `gyro_range` (`2000.f`). -/
def gyro_range : ℚ := 2000
/-- Constant `gyro_transform_factor`. -/
def gyro_transform_factor : ℚ := (gyro_range * 3.141527) / (180 * 32768)
/-- Constant `accel_range` (`0.00195f`). -/
def accel_range : ℚ := 0.00195
/-- Constant `accelerator_transform_factor`. -/
def accelerator_transform_factor : ℚ := accel_range * gravity

/-- The value of `motion_event event_data = { 0 }`, slots of an inertial entry. -/
def zero_motion_data : rs_motion_data :=
  { timestamp_data := { timestamp := 0, source_id := 0, frame_number := 0 },
    is_valid := 0, axes := [0, 0, 0] }

/-- The value of `motion_event event_data = { 0 }`. -/
def zero_event : motion_event :=
  { error_state := 0, status := 0, imu_entries_num := 0, non_imu_entries_num := 0,
    imu_packets := List.replicate 4 zero_motion_data,
    non_imu_packets := List.replicate 8 { timestamp := 0, source_id := 0, frame_number := 0 } }

/-! ## Packet decoder: operations -/

/-- The read `data[off]`; a read outside the buffer stops the run. -/
def readByte (data : List Byte) (off : Nat) : Except Stop Nat :=
  match data[off]? with
  | some b => Except.ok b.val
  | none => Except.error Stop.out_of_bounds

/-- A `memcpy` of `sizeof(unsigned short)` bytes from `&data[off]` into an
`unsigned short`, on a little-endian host. -/
def readU16 (data : List Byte) (off : Nat) : Except Stop Nat := do
  let b0 ← readByte data off
  let b1 ← readByte data (off + 1)
  pure (b0 + 256 * b1)

/-- A `memcpy` of `sizeof(unsigned int)` bytes from `&data[off]` into an
`unsigned int`, on a little-endian host. -/
def readU32 (data : List Byte) (off : Nat) : Except Stop Nat := do
  let b0 ← readByte data off
  let b1 ← readByte data (off + 1)
  let b2 ← readByte data (off + 2)
  let b3 ← readByte data (off + 3)
  pure (b0 + 256 * b1 + 65536 * b2 + 16777216 * b3)

/-- A `memcpy` of `sizeof(short)` bytes from `&data[off]` into a `short`
(two's complement), on a little-endian host. -/
def readI16 (data : List Byte) (off : Nat) : Except Stop Int := do
  let u ← readU16 data off
  pure (if u < 32768 then (u : Int) else (u : Int) - 65536)

/-- The function `motion_module_parser::parse_timestamp`, reading the entry at
`&data[off]` and returning the entry it fills in. -/
def parse_timestamp (data : List Byte) (off : Nat) : Except Stop rs_timestamp_data := do
  let d1 ← readByte data (off + 1)
  let d0 ← readByte data off
  let tmp : Nat := ((d1 <<< 8) ||| d0) % 65536
  let timestamp ← readU32 data (off + 2)
  pure { source_id := tmp &&& 0x7,
         frame_number := ((tmp &&& 0x7fff) >>> 3) % 65536,
         timestamp := timestamp }

/-- The body of the axis loop of `parse_motion` for one raw reading. -/
def convert_axis (ids : EventSources) (source_id : Nat) (raw : Int) : ℚ :=
  let data_shift : Nat := if ids.RS_IMU_ACCEL = source_id then 4 else 0
  let axis : ℚ := ((raw >>> data_shift : Int) : ℚ)
  let axis := if ids.RS_IMU_ACCEL = source_id then axis * accelerator_transform_factor else axis
  let axis := if ids.RS_IMU_GYRO = source_id then axis * gyro_transform_factor else axis
  axis

/-- The function `motion_module_parser::parse_motion`, reading the entry at
`&data[off]`. -/
def parse_motion (ids : EventSources) (data : List Byte) (off : Nat) :
    Except Stop rs_motion_data := do
  let timestamp_data ← parse_timestamp data off
  let d1 ← readByte data (off + 1)
  let is_valid := d1 >>> 7
  let tmp0 ← readI16 data (off + 6)
  let tmp1 ← readI16 data (off + 8)
  let tmp2 ← readI16 data (off + 10)
  pure { timestamp_data := timestamp_data,
         is_valid := is_valid,
         axes := [convert_axis ids timestamp_data.source_id tmp0,
                  convert_axis ids timestamp_data.source_id tmp1,
                  convert_axis ids timestamp_data.source_id tmp2] }

/-- The loop `for (uint8_t j = 0; j < event_data.imu_entries_num; j++)` over the
inertial entries of the packet at `cur_packet`.  It is entered only after the
header check, so `j` stays below 256. -/
def parse_imu_entries (ids : EventSources) (data : List Byte) (cur_packet : Nat)
    (event_data : motion_event) : Except Stop motion_event :=
  (List.range event_data.imu_entries_num).foldlM (fun (ev : motion_event) (j : Nat) => do
    let m ← parse_motion ids data (cur_packet + (motion_packet_header_size + j * imu_entry_size))
    pure { ev with imu_packets := ev.imu_packets.set j m }) event_data

/-- The loop `for (uint8_t j = 0; j < event_data.non_imu_entries_num; j++)` over
the timestamp entries of the packet at `cur_packet`. -/
def parse_non_imu_entries (data : List Byte) (cur_packet : Nat)
    (event_data : motion_event) : Except Stop motion_event :=
  (List.range event_data.non_imu_entries_num).foldlM (fun (ev : motion_event) (j : Nat) => do
    let t ← parse_timestamp data (cur_packet + (non_imu_data_offset + j * non_imu_entry_size))
    pure { ev with non_imu_packets := ev.non_imu_packets.set j t }) event_data

/-- The body of the packet loop of `motion_module_parser::operator()` for the
packet at `cur_packet`: the event that is pushed, or `none` when the header
check fails and nothing is pushed. -/
def parse_packet (ids : EventSources) (data : List Byte) (cur_packet : Nat) :
    Except Stop (Option motion_event) := do
  let error_state ← readU16 data (cur_packet + 0)
  let status ← readU16 data (cur_packet + 2)
  let imu_entries_num ← readU16 data (cur_packet + 4)
  let non_imu_entries_num ← readU16 data (cur_packet + 6)
  let event_data : motion_event :=
    { zero_event with error_state := error_state, status := status,
                      imu_entries_num := imu_entries_num,
                      non_imu_entries_num := non_imu_entries_num }
  if imu_entries_num ≤ imu_data_entries ∧ non_imu_entries_num ≤ non_imu_data_entries then do
    let event_data ← parse_imu_entries ids data cur_packet event_data
    let event_data ← parse_non_imu_entries data cur_packet event_data
    pure (some event_data)
  else
    pure none

/-- The loop `for (uint8_t i = 0; i < packets; i++)` of
`motion_module_parser::operator()`, from counter `i` with the vector `v` built so
far.  Each test of the loop condition takes one unit of fuel; the counter is an
8-bit unsigned integer, so the increment wraps at 256. -/
def packet_loop (ids : EventSources) (data : List Byte) (packets : Nat) :
    Nat → Nat → List motion_event → Except Stop (List motion_event)
  | 0, _, _ => Except.error Stop.out_of_fuel
  | fuel + 1, i, v =>
    if i < packets then do
      let r ← parse_packet ids data (i * motion_packet_size)
      let v := match r with
        | some event_data => v ++ [event_data]
        | none => v
      packet_loop ids data packets fuel ((i + 1) % 256) v
    else
      pure v

/-- The function `motion_module_parser::operator()`, with `data_size` the length
of the buffer.  `packets` is an `unsigned short`, so the quotient is kept modulo
65536.  The result is `error out_of_fuel` when the loop is still running after
`fuel` tests of its condition. -/
def decode (ids : EventSources) (fuel : Nat) (data : List Byte) :
    Except Stop (List motion_event) :=
  let packets : Nat := (data.length / motion_packet_size) % 65536
  if packets ≠ 0 then
    packet_loop ids data packets fuel 0 []
  else
    pure []

/-- The event the packet loop pushes for packet `i` of the buffer, if any. -/
def packetEvent (ids : EventSources) (data : List Byte) (i : Nat) : Option motion_event :=
  match parse_packet ids data (i * motion_packet_size) with
  | Except.ok r => r
  | Except.error _ => none

/-- A packet of 104 bytes whose header declares five inertial entries, one more
than there are slots; every other byte is zero. -/
def badHeaderPacket : List Byte := [0, 0, 0, 0, 5, 0, 0, 0] ++ List.replicate 96 0

/-- A packet with one inertial entry and no timestamp entry: the entry has
`source_id = 2`, frame number 0, the valid bit set, timestamp 0 and the raw axis
readings `(100, -100, 0)`; every other byte is zero. -/
def gyroPacket : List Byte :=
  [0, 0, 0, 0, 1, 0, 0, 0] ++
  [0x02, 0x80, 0, 0, 0, 0, 100, 0, 0x9c, 0xff, 0, 0] ++ List.replicate 84 0

/-- The event expected from `gyroPacket` when `source_id = 2` is the gyroscope. -/
def gyroEvent : motion_event :=
  { zero_event with
    imu_entries_num := 1,
    imu_packets :=
      [{ timestamp_data := { timestamp := 0, source_id := 2, frame_number := 0 },
         is_valid := 1,
         axes := [100 * gyro_transform_factor, -100 * gyro_transform_factor, 0] },
       zero_motion_data, zero_motion_data, zero_motion_data] }

/-! ## Power controller: which outputs are enabled -/

/-- Whether the output with command opcode `opcode` is enabled after the actions of
`trace`: the flag of the last command issued for it, and disabled if there is
none. -/
def outputEnabled (opcode : Nat) (trace : List HwAction) : Bool :=
  trace.foldl (fun (b : Bool) (a : HwAction) =>
    match a with
    | HwAction.monitor_command op param1 _ => if op = opcode then decide (param1 = 1) else b
    | HwAction.sleep_for _ => b) false

/-- Run a sequence of calls that all succeed: the controller after the last one, or
`none` as soon as a call throws. -/
def runCallsOk (dev : Transport) : List Call → Ctl → Option Ctl
  | [], c => some c
  | k :: ks, c =>
    match k.run dev c with
    | (Except.ok _, c1) => runCallsOk dev ks c1
    | (Except.error _, _) => none

/-- Whether a call changes the setting that the state records for its own output:
it enables video from Idle or Eventing, disables it from Streaming or FullLoad,
enables events from Idle or Streaming, disables them from Eventing or FullLoad. -/
def Call.flips (state : Int) : Call → Bool
  | Call.power true => decide (state = mm_idle ∨ state = mm_eventing)
  | Call.power false => decide (state = mm_streaming ∨ state = mm_full_load)
  | Call.events true => decide (state = mm_idle ∨ state = mm_streaming)
  | Call.events false => decide (state = mm_eventing ∨ state = mm_full_load)

/-- Run a sequence of calls that all succeed and each of which changes the setting
of its own output; `none` as soon as a call does not. -/
def runFlips (dev : Transport) : List Call → Ctl → Option Ctl
  | [], c => some c
  | k :: ks, c =>
    if k.flips c.state then
      match k.run dev c with
      | (Except.ok _, c1) => runFlips dev ks c1
      | (Except.error _, _) => none
    else
      none

end MotionModule

namespace MotionModule

/-! ## Power controller: lemmas -/

theorem bind_apply {α β : Type} (m : CtlM α) (f : α → CtlM β) (c : Ctl) :
    (m >>= f) c = match m c with
      | (Except.ok a, c1) => f a c1
      | (Except.error e, c1) => (Except.error e, c1) := rfl

theorem pure_apply {α : Type} (a : α) (c : Ctl) : (pure a : CtlM α) c = (Except.ok a, c) := rfl

theorem valid_iff (s : Int) : valid s = true ↔ s = 0 ∨ s = 1 ∨ s = 2 ∨ s = 3 := by
  simp [valid, mm_idle, mm_streaming, mm_eventing, mm_full_load]

theorem impose_invalid (dev : Transport) (c : Ctl) (request : Int) (on_ : Bool)
    (h : valid (requested_state c.state request on_) = false) :
    impose dev request on_ c = (Except.error CtlError.invalid_transition, c) := by
  simp [impose, bind_apply, pure_apply, getState, h, raise]

theorem impose_valid (dev : Transport) (c : Ctl) (request : Int) (on_ : Bool)
    (h : valid (requested_state c.state request on_) = true) :
    impose dev request on_ c = enter_state dev (requested_state c.state request on_) c := by
  simp [impose, bind_apply, pure_apply, getState, h]

theorem enter_state_same (dev : Transport) (c : Ctl) :
    enter_state dev c.state c = (Except.ok (), c) := by
  simp [enter_state, bind_apply, pure_apply, getState]

theorem enter_state_table (dev : Transport) (c : Ctl) (new_state : Int)
    (hdev : ∀ h a, dev h a = true) (hc : valid c.state = true) (hn : valid new_state = true)
    (hne : new_state ≠ c.state) :
    enter_state dev new_state c =
      (Except.ok (), { state := new_state,
                       trace := c.trace ++ transitionTable c.state new_state }) := by
  obtain ⟨s, tr⟩ := c
  rw [valid_iff] at hc hn
  simp only at hc hne
  rcases hc with rfl | rfl | rfl | rfl <;> rcases hn with rfl | rfl | rfl | rfl <;>
    first
    | exact absurd rfl hne
    | simp [enter_state, set_control, perform_and_send_monitor_command, bind_apply, pure_apply,
        getState, setState, sleep_for, hdev, transitionTable, mm_idle, mm_streaming,
        mm_eventing, mm_full_load, mm_video_output, mm_events_output]

theorem enter_state_outcome (dev : Transport) (c : Ctl) (new_state : Int) :
    ((enter_state dev new_state c).1 = Except.ok () ∧
        (enter_state dev new_state c).2.state = new_state ∧
        anySendFailed dev c.trace ((enter_state dev new_state c).2.trace.drop c.trace.length)
          = false) ∨
    ((enter_state dev new_state c).1 = Except.error CtlError.transport ∧
        (enter_state dev new_state c).2.state = c.state ∧
        anySendFailed dev c.trace ((enter_state dev new_state c).2.trace.drop c.trace.length)
          = true) := by
  obtain ⟨s, tr⟩ := c
  simp only [enter_state, set_control, bind_apply, pure_apply,
        getState, setState, sleep_for, mm_idle, mm_streaming,
        mm_eventing, mm_full_load, mm_video_output, mm_events_output]
  split_ifs <;> first
    | omega
    | (simp [perform_and_send_monitor_command, bind_apply, pure_apply, setState, sleep_for,
        anySendFailed] <;> (try split_ifs) <;> (try simp_all [anySendFailed]) <;>
        (try split_ifs) <;> simp_all [anySendFailed])

theorem impose_state_valid (dev : Transport) (c : Ctl) (request : Int) (on_ : Bool)
    (hs : valid c.state = true) : valid (impose dev request on_ c).2.state = true := by
  cases hv : valid (requested_state c.state request on_) with
  | false => rw [impose_invalid dev c request on_ hv]; exact hs
  | true =>
    rw [impose_valid dev c request on_ hv]
    rcases enter_state_outcome dev c (requested_state c.state request on_) with h | h
    · rw [h.2.1]; exact hv
    · rw [h.2.1]; exact hs

theorem runCalls_state_valid (dev : Transport) (calls : List Call) :
    ∀ c : Ctl, valid c.state = true → valid (runCalls dev calls c).state = true := by
  induction calls with
  | nil => intro c hc; exact hc
  | cons k ks ih =>
    intro c hc
    apply ih
    cases k with
    | power b => exact impose_state_valid dev c mm_video_output b hc
    | events b => exact impose_state_valid dev c mm_events_output b hc

/-! ## Power controller: the claims -/

/-- C1: when the candidate `current + weight * (enable ? +1 : -1)` is not one of the
four states, `impose` throws, and the controller is exactly as before: the state is
unchanged and no hardware action has been added to the trace. -/
theorem impose_rejects_invalid_candidate (dev : Transport) (c : Ctl) (request : Int)
    (on_ : Bool) (h : valid (requested_state c.state request on_) = false) :
    impose dev request on_ c = (Except.error CtlError.invalid_transition, c) :=
  impose_invalid dev c request on_ h

theorem impose_rejects_invalid_candidate_witness :
    valid (requested_state initial.state mm_video_output false) = false ∧
    impose reliable mm_video_output false initial
      = (Except.error CtlError.invalid_transition, initial) :=
  ⟨by decide, impose_rejects_invalid_candidate reliable initial mm_video_output false (by decide)⟩

/-- C2: for distinct operating states `c.state` and `new_state`, when every send
succeeds, `enter_state` returns normally, has appended to the trace exactly the
actions of the table for that pair, in order, and has committed `new_state`. -/
theorem enter_state_emits_table (dev : Transport) (c : Ctl) (new_state : Int)
    (hdev : ∀ h a, dev h a = true) (hc : valid c.state = true) (hn : valid new_state = true)
    (hne : new_state ≠ c.state) :
    enter_state dev new_state c =
      (Except.ok (), { state := new_state,
                       trace := c.trace ++ transitionTable c.state new_state }) :=
  enter_state_table dev c new_state hdev hc hn hne

theorem enter_state_emits_table_witness :
    transitionTable mm_idle mm_streaming
      = [HwAction.monitor_command MMPWR 1 1, HwAction.sleep_for 2000] ∧
    enter_state reliable mm_streaming initial =
      (Except.ok (), { state := mm_streaming,
                       trace := initial.trace ++ transitionTable initial.state mm_streaming }) :=
  ⟨rfl, enter_state_emits_table reliable initial mm_streaming (fun _ _ => rfl) (by decide)
    (by decide) (by decide)⟩

/-- C3: from an operating state, when the candidate is one of the four states and
every send succeeds, `impose` returns normally and the state afterwards is the
candidate. -/
theorem impose_commits_candidate (dev : Transport) (c : Ctl) (request : Int) (on_ : Bool)
    (hdev : ∀ h a, dev h a = true) (hc : valid c.state = true)
    (hv : valid (requested_state c.state request on_) = true) :
    (impose dev request on_ c).1 = Except.ok () ∧
    (impose dev request on_ c).2.state = requested_state c.state request on_ := by
  rw [impose_valid dev c request on_ hv]
  by_cases hne : requested_state c.state request on_ = c.state
  · rw [hne, enter_state_same]
    exact ⟨rfl, rfl⟩
  · rw [enter_state_table dev c _ hdev hc hv hne]
    exact ⟨rfl, rfl⟩

theorem impose_commits_candidate_witness :
    (impose reliable mm_events_output true initial).1 = Except.ok () ∧
    (impose reliable mm_events_output true initial).2.state = mm_eventing :=
  impose_commits_candidate reliable initial mm_events_output true (fun _ _ => rfl) (by decide)
    (by decide)

/-- C4: starting from the constructed controller (state Idle), after any finite
sequence of toggle calls, over any transport (each send succeeding or failing),
the stored state is one of the four operating states. -/
theorem state_always_valid (dev : Transport) (calls : List Call) :
    (runCalls dev calls initial).state = mm_idle ∨
    (runCalls dev calls initial).state = mm_streaming ∨
    (runCalls dev calls initial).state = mm_eventing ∨
    (runCalls dev calls initial).state = mm_full_load := by
  have h := runCalls_state_valid dev calls initial (by decide)
  simpa [valid] using h

/-- C5: entering the state the controller is already in does nothing: no error, no
hardware action, the controller is unchanged; and so does `impose` whenever the
candidate it computes equals the current state. -/
theorem same_state_is_noop (dev : Transport) (c : Ctl) (hc : valid c.state = true) :
    enter_state dev c.state c = (Except.ok (), c) ∧
    ∀ (request : Int) (on_ : Bool), requested_state c.state request on_ = c.state →
      impose dev request on_ c = (Except.ok (), c) := by
  refine ⟨enter_state_same dev c, ?_⟩
  intro request on_ h
  rw [impose_valid dev c request on_ (by rw [h]; exact hc), h, enter_state_same]

theorem same_state_is_noop_witness :
    enter_state failsAfterFirst mm_streaming { state := mm_streaming, trace := [] }
      = (Except.ok (), { state := mm_streaming, trace := [] }) ∧
    impose failsAfterFirst 0 true { state := mm_streaming, trace := [] }
      = (Except.ok (), { state := mm_streaming, trace := [] }) :=
  ⟨(same_state_is_noop failsAfterFirst { state := mm_streaming, trace := [] } (by decide)).1,
   (same_state_is_noop failsAfterFirst { state := mm_streaming, trace := [] } (by decide)).2
      0 true (by decide)⟩

/-- C6: when the candidate is valid and one of the sends issued by the call is failed
by the transport, `impose` ends with the transport's exception and the state is the
one before the call. -/
theorem failed_send_keeps_state (dev : Transport) (c : Ctl) (request : Int) (on_ : Bool)
    (hv : valid (requested_state c.state request on_) = true)
    (hfail : anySendFailed dev c.trace
      ((impose dev request on_ c).2.trace.drop c.trace.length) = true) :
    (impose dev request on_ c).1 = Except.error CtlError.transport ∧
    (impose dev request on_ c).2.state = c.state := by
  rw [impose_valid dev c request on_ hv] at hfail ⊢
  rcases enter_state_outcome dev c (requested_state c.state request on_) with h | h
  · rw [h.2.2] at hfail
    exact absurd hfail (by decide)
  · exact ⟨h.1, h.2.1⟩

theorem failed_send_keeps_state_witness :
    (impose failsAfterFirst mm_events_output true initial).2.trace
      = [HwAction.monitor_command MMPWR 1 1, HwAction.monitor_command MM_ACTIVATE 1 1] ∧
    (impose failsAfterFirst mm_events_output true initial).1
      = Except.error CtlError.transport ∧
    (impose failsAfterFirst mm_events_output true initial).2.state = initial.state :=
  ⟨rfl, failed_send_keeps_state failsAfterFirst initial mm_events_output true (by decide)
    (by rfl)⟩

/-! ## Packet decoder: lemmas -/

theorem motion_packet_size_eq : motion_packet_size = 104 := by decide

theorem except_bind_congr_ok {ε α β : Type} (x : Except ε α) (f g : α → Except ε β)
    (h : ∀ a, x = Except.ok a → f a = g a) : (x >>= f) = (x >>= g) := by
  cases x with
  | error e => rfl
  | ok a => exact h a rfl

theorem foldlM_except_congr {ε α β : Type} (f g : β → α → Except ε β) (P : β → Prop)
    (l : List α)
    (hfg : ∀ x ∈ l, ∀ b, P b → f b x = g b x)
    (hP : ∀ x ∈ l, ∀ b b1, P b → f b x = Except.ok b1 → P b1) :
    ∀ init, P init → l.foldlM f init = l.foldlM g init := by
  induction l with
  | nil => intro init _; rfl
  | cons x xs ih =>
    intro init hinit
    rw [List.foldlM_cons, List.foldlM_cons, ← hfg x (List.mem_cons_self x xs) init hinit]
    apply except_bind_congr_ok
    intro b1 hb1
    exact ih (fun y hy => hfg y (List.mem_cons_of_mem x hy))
      (fun y hy => hP y (List.mem_cons_of_mem x hy)) b1
      (hP x (List.mem_cons_self x xs) init b1 hinit hb1)

theorem foldlM_except_inv {ε α β : Type} (f : β → α → Except ε β) (P : β → Prop)
    (l : List α) (hP : ∀ x ∈ l, ∀ b b1, P b → f b x = Except.ok b1 → P b1) :
    ∀ init r, P init → l.foldlM f init = Except.ok r → P r := by
  induction l with
  | nil =>
    intro init r hinit hr
    have : init = r := by simpa [List.foldlM_nil, pure, Except.pure] using hr
    exact this ▸ hinit
  | cons x xs ih =>
    intro init r hinit hr
    rw [List.foldlM_cons] at hr
    cases hx : f init x with
    | error e => rw [hx] at hr; cases hr
    | ok b1 =>
      rw [hx] at hr
      exact ih (fun y hy => hP y (List.mem_cons_of_mem x hy)) b1 r
        (hP x (List.mem_cons_self x xs) init b1 hinit hx) hr

theorem readByte_congr (d1 d2 : List Byte) (o1 o2 : Nat) (h : d1[o1]? = d2[o2]?) :
    readByte d1 o1 = readByte d2 o2 := by
  unfold readByte
  rw [h]

section window

variable (d1 d2 : List Byte) (b1 b2 : Nat)
variable (h : ∀ k, k < 104 → d1[b1 + k]? = d2[b2 + k]?)
include h

theorem readByte_window (k : Nat) (hk : k < 104) :
    readByte d1 (b1 + k) = readByte d2 (b2 + k) :=
  readByte_congr d1 d2 _ _ (h k hk)

theorem readU16_window (k : Nat) (hk : k + 2 ≤ 104) :
    readU16 d1 (b1 + k) = readU16 d2 (b2 + k) := by
  unfold readU16
  rw [readByte_window d1 d2 b1 b2 h k (by omega), Nat.add_assoc b1, Nat.add_assoc b2,
    readByte_window d1 d2 b1 b2 h (k + 1) (by omega)]

theorem readU32_window (k : Nat) (hk : k + 4 ≤ 104) :
    readU32 d1 (b1 + k) = readU32 d2 (b2 + k) := by
  unfold readU32
  simp only [Nat.add_assoc b1, Nat.add_assoc b2]
  rw [readByte_window d1 d2 b1 b2 h k (by omega),
    readByte_window d1 d2 b1 b2 h (k + 1) (by omega),
    readByte_window d1 d2 b1 b2 h (k + 2) (by omega),
    readByte_window d1 d2 b1 b2 h (k + 3) (by omega)]

theorem readI16_window (k : Nat) (hk : k + 2 ≤ 104) :
    readI16 d1 (b1 + k) = readI16 d2 (b2 + k) := by
  unfold readI16
  rw [readU16_window d1 d2 b1 b2 h k hk]

theorem parse_timestamp_window (k : Nat) (hk : k + 6 ≤ 104) :
    parse_timestamp d1 (b1 + k) = parse_timestamp d2 (b2 + k) := by
  unfold parse_timestamp
  simp only [Nat.add_assoc b1, Nat.add_assoc b2]
  rw [readByte_window d1 d2 b1 b2 h k (by omega),
    readByte_window d1 d2 b1 b2 h (k + 1) (by omega),
    readU32_window d1 d2 b1 b2 h (k + 2) (by omega)]

theorem parse_motion_window (ids : EventSources) (k : Nat) (hk : k + 12 ≤ 104) :
    parse_motion ids d1 (b1 + k) = parse_motion ids d2 (b2 + k) := by
  unfold parse_motion
  rw [parse_timestamp_window d1 d2 b1 b2 h k (by omega)]
  simp only [Nat.add_assoc b1, Nat.add_assoc b2]
  rw [readByte_window d1 d2 b1 b2 h (k + 1) (by omega),
    readI16_window d1 d2 b1 b2 h (k + 6) (by omega),
    readI16_window d1 d2 b1 b2 h (k + 8) (by omega),
    readI16_window d1 d2 b1 b2 h (k + 10) (by omega)]

theorem parse_imu_entries_window (ids : EventSources) (ev : motion_event)
    (hn : ev.imu_entries_num ≤ 4) :
    parse_imu_entries ids d1 b1 ev = parse_imu_entries ids d2 b2 ev := by
  unfold parse_imu_entries
  refine foldlM_except_congr _ _ (fun _ => True) _ ?_ (fun _ _ _ _ _ _ => trivial) ev trivial
  intro j hj ev1 _
  have hj4 : j < 4 := Nat.lt_of_lt_of_le (List.mem_range.mp hj) hn
  simp only [motion_packet_header_size, imu_entry_size]
  rw [parse_motion_window d1 d2 b1 b2 h ids (8 + j * 12) (by omega)]

theorem parse_non_imu_entries_window (ev : motion_event) (hn : ev.non_imu_entries_num ≤ 8) :
    parse_non_imu_entries d1 b1 ev = parse_non_imu_entries d2 b2 ev := by
  unfold parse_non_imu_entries
  refine foldlM_except_congr _ _ (fun _ => True) _ ?_ (fun _ _ _ _ _ _ => trivial) ev trivial
  intro j hj ev1 _
  have hj8 : j < 8 := Nat.lt_of_lt_of_le (List.mem_range.mp hj) hn
  have hoff : non_imu_data_offset = 56 := by decide
  simp only [hoff, non_imu_entry_size]
  rw [parse_timestamp_window d1 d2 b1 b2 h (56 + j * 6) (by omega)]

end window

theorem parse_imu_entries_header (ids : EventSources) (data : List Byte) (cur_packet : Nat)
    (ev r : motion_event) (hr : parse_imu_entries ids data cur_packet ev = Except.ok r) :
    r.error_state = ev.error_state ∧ r.status = ev.status ∧
    r.imu_entries_num = ev.imu_entries_num ∧
    r.non_imu_entries_num = ev.non_imu_entries_num ∧
    r.non_imu_packets = ev.non_imu_packets := by
  unfold parse_imu_entries at hr
  refine foldlM_except_inv _ (fun e => e.error_state = ev.error_state ∧ e.status = ev.status ∧
    e.imu_entries_num = ev.imu_entries_num ∧ e.non_imu_entries_num = ev.non_imu_entries_num ∧
    e.non_imu_packets = ev.non_imu_packets) _ ?_ ev r ⟨rfl, rfl, rfl, rfl, rfl⟩ hr
  intro j _ e e1 he hstep
  cases hm : parse_motion ids data (cur_packet + (motion_packet_header_size + j * imu_entry_size)) with
  | error err => simp [hm, bind, Except.bind] at hstep
  | ok m =>
    simp only [hm, bind, Except.bind, pure, Except.pure, Except.ok.injEq] at hstep
    subst hstep
    exact he

theorem parse_packet_window (ids : EventSources) (d1 d2 : List Byte) (b1 b2 : Nat)
    (h : ∀ k, k < 104 → d1[b1 + k]? = d2[b2 + k]?) :
    parse_packet ids d1 b1 = parse_packet ids d2 b2 := by
  unfold parse_packet
  rw [readU16_window d1 d2 b1 b2 h 0 (by omega), readU16_window d1 d2 b1 b2 h 2 (by omega),
    readU16_window d1 d2 b1 b2 h 4 (by omega), readU16_window d1 d2 b1 b2 h 6 (by omega)]
  refine bind_congr (fun e => bind_congr (fun st => bind_congr (fun n => bind_congr (fun m => ?_))))
  simp only [imu_data_entries, non_imu_data_entries]
  split_ifs with hc
  · rw [parse_imu_entries_window d1 d2 b1 b2 h ids _ hc.1]
    apply except_bind_congr_ok
    intro ev1 hev1
    have hhdr := parse_imu_entries_header ids d2 b2 _ ev1 hev1
    rw [parse_non_imu_entries_window d1 d2 b1 b2 h ev1 (by rw [hhdr.2.2.2.1]; exact hc.2)]
  · rfl

theorem packet_loop_window (ids : EventSources) (d1 d2 : List Byte) (packets : Nat)
    (h : ∀ i, i < packets → ∀ k, k < 104 → d1[i * 104 + k]? = d2[i * 104 + k]?) :
    ∀ (fuel i : Nat) (v : List motion_event),
      packet_loop ids d1 packets fuel i v = packet_loop ids d2 packets fuel i v := by
  intro fuel
  induction fuel with
  | zero => intro i v; rfl
  | succ fuel ih =>
    intro i v
    unfold packet_loop
    split_ifs with hi
    · rw [motion_packet_size_eq, parse_packet_window ids d1 d2 (i * 104) (i * 104) (h i hi)]
      exact bind_congr (fun r => ih _ _)
    · rfl

theorem decode_take (ids : EventSources) (fuel : Nat) (data : List Byte) :
    decode ids fuel data = decode ids fuel (data.take (104 * (data.length / 104))) := by
  have hle : 104 * (data.length / 104) ≤ data.length := Nat.mul_div_le _ _
  have hlen : (data.take (104 * (data.length / 104))).length = 104 * (data.length / 104) := by
    rw [List.length_take]; omega
  have hdiv : 104 * (data.length / 104) / 104 = data.length / 104 := by
    rw [Nat.mul_div_cancel_left _ (by decide : 0 < 104)]
  unfold decode
  rw [hlen, motion_packet_size_eq, hdiv]
  simp only []
  split_ifs with hp
  · apply packet_loop_window
    intro i hi k hk
    have hi1 : i < data.length / 104 :=
      Nat.lt_of_lt_of_le hi (Nat.mod_le _ _)
    rw [List.getElem?_take_of_lt (by omega)]
  · rfl

theorem except_ok_bind {ε α β : Type} (a : α) (f : α → Except ε β) :
    (Except.ok a >>= f) = f a := rfl

theorem foldlM_except_ok {ε α β : Type} (f : β → α → Except ε β) (l : List α)
    (hf : ∀ x ∈ l, ∀ b, ∃ b1, f b x = Except.ok b1) :
    ∀ init, ∃ r, l.foldlM f init = Except.ok r := by
  induction l with
  | nil => intro init; exact ⟨init, rfl⟩
  | cons x xs ih =>
    intro init
    obtain ⟨b1, hb1⟩ := hf x (List.mem_cons_self x xs) init
    rw [List.foldlM_cons, hb1, except_ok_bind]
    exact ih (fun y hy => hf y (List.mem_cons_of_mem x hy)) b1

theorem readByte_ok (data : List Byte) (off : Nat) (h : off < data.length) :
    ∃ r, readByte data off = Except.ok r := by
  unfold readByte
  rw [List.getElem?_eq_getElem h]
  exact ⟨_, rfl⟩

theorem readU16_ok (data : List Byte) (off : Nat) (h : off + 2 ≤ data.length) :
    ∃ r, readU16 data off = Except.ok r := by
  obtain ⟨a0, h0⟩ := readByte_ok data off (by omega)
  obtain ⟨a1, h1⟩ := readByte_ok data (off + 1) (by omega)
  unfold readU16
  rw [h0, except_ok_bind, h1, except_ok_bind]
  exact ⟨_, rfl⟩

theorem readU32_ok (data : List Byte) (off : Nat) (h : off + 4 ≤ data.length) :
    ∃ r, readU32 data off = Except.ok r := by
  obtain ⟨a0, h0⟩ := readByte_ok data off (by omega)
  obtain ⟨a1, h1⟩ := readByte_ok data (off + 1) (by omega)
  obtain ⟨a2, h2⟩ := readByte_ok data (off + 2) (by omega)
  obtain ⟨a3, h3⟩ := readByte_ok data (off + 3) (by omega)
  unfold readU32
  rw [h0, except_ok_bind, h1, except_ok_bind, h2, except_ok_bind, h3, except_ok_bind]
  exact ⟨_, rfl⟩

theorem readI16_ok (data : List Byte) (off : Nat) (h : off + 2 ≤ data.length) :
    ∃ r, readI16 data off = Except.ok r := by
  obtain ⟨u, hu⟩ := readU16_ok data off h
  unfold readI16
  rw [hu, except_ok_bind]
  exact ⟨_, rfl⟩

theorem parse_timestamp_ok (data : List Byte) (off : Nat) (h : off + 6 ≤ data.length) :
    ∃ r, parse_timestamp data off = Except.ok r := by
  obtain ⟨a0, h0⟩ := readByte_ok data off (by omega)
  obtain ⟨a1, h1⟩ := readByte_ok data (off + 1) (by omega)
  obtain ⟨t, ht⟩ := readU32_ok data (off + 2) (by omega)
  unfold parse_timestamp
  rw [h1, except_ok_bind, h0, except_ok_bind, ht, except_ok_bind]
  exact ⟨_, rfl⟩

theorem parse_motion_ok (ids : EventSources) (data : List Byte) (off : Nat)
    (h : off + 12 ≤ data.length) : ∃ r, parse_motion ids data off = Except.ok r := by
  obtain ⟨ts, hts⟩ := parse_timestamp_ok data off (by omega)
  obtain ⟨a1, h1⟩ := readByte_ok data (off + 1) (by omega)
  obtain ⟨t0, ht0⟩ := readI16_ok data (off + 6) (by omega)
  obtain ⟨t1, ht1⟩ := readI16_ok data (off + 8) (by omega)
  obtain ⟨t2, ht2⟩ := readI16_ok data (off + 10) (by omega)
  unfold parse_motion
  rw [hts, except_ok_bind, h1, except_ok_bind, ht0, except_ok_bind, ht1, except_ok_bind, ht2,
    except_ok_bind]
  exact ⟨_, rfl⟩

theorem parse_imu_entries_ok (ids : EventSources) (data : List Byte) (cur_packet : Nat)
    (ev : motion_event) (hn : ev.imu_entries_num ≤ 4) (h : cur_packet + 104 ≤ data.length) :
    ∃ r, parse_imu_entries ids data cur_packet ev = Except.ok r := by
  unfold parse_imu_entries
  apply foldlM_except_ok
  intro j hj ev1
  have hj4 : j < 4 := Nat.lt_of_lt_of_le (List.mem_range.mp hj) hn
  obtain ⟨m, hm⟩ := parse_motion_ok ids data
    (cur_packet + (motion_packet_header_size + j * imu_entry_size))
    (by simp only [motion_packet_header_size, imu_entry_size]; omega)
  simp only [hm, except_ok_bind]
  exact ⟨_, rfl⟩

theorem parse_non_imu_entries_ok (data : List Byte) (cur_packet : Nat)
    (ev : motion_event) (hn : ev.non_imu_entries_num ≤ 8) (h : cur_packet + 104 ≤ data.length) :
    ∃ r, parse_non_imu_entries data cur_packet ev = Except.ok r := by
  unfold parse_non_imu_entries
  apply foldlM_except_ok
  intro j hj ev1
  have hj8 : j < 8 := Nat.lt_of_lt_of_le (List.mem_range.mp hj) hn
  have hoff : non_imu_data_offset = 56 := by decide
  obtain ⟨t, ht⟩ := parse_timestamp_ok data
    (cur_packet + (non_imu_data_offset + j * non_imu_entry_size))
    (by simp only [hoff, non_imu_entry_size]; omega)
  simp only [ht, except_ok_bind]
  exact ⟨_, rfl⟩

theorem parse_packet_ok (ids : EventSources) (data : List Byte) (cur_packet : Nat)
    (h : cur_packet + 104 ≤ data.length) :
    ∃ r, parse_packet ids data cur_packet = Except.ok r := by
  obtain ⟨e, he⟩ := readU16_ok data (cur_packet + 0) (by omega)
  obtain ⟨st, hst⟩ := readU16_ok data (cur_packet + 2) (by omega)
  obtain ⟨n, hn⟩ := readU16_ok data (cur_packet + 4) (by omega)
  obtain ⟨m, hm⟩ := readU16_ok data (cur_packet + 6) (by omega)
  unfold parse_packet
  rw [he, except_ok_bind, hst, except_ok_bind, hn, except_ok_bind, hm, except_ok_bind]
  simp only [imu_data_entries, non_imu_data_entries]
  split_ifs with hc
  · obtain ⟨ev1, hev1⟩ := parse_imu_entries_ok ids data cur_packet
      { zero_event with error_state := e, status := st, imu_entries_num := n,
                        non_imu_entries_num := m } hc.1 h
    have hhdr := parse_imu_entries_header ids data cur_packet _ ev1 hev1
    obtain ⟨ev2, hev2⟩ := parse_non_imu_entries_ok data cur_packet ev1
      (by rw [hhdr.2.2.2.1]; exact hc.2) h
    rw [hev1, except_ok_bind, hev2, except_ok_bind]
    exact ⟨_, rfl⟩
  · exact ⟨_, rfl⟩

theorem packet_loop_never_returns (ids : EventSources) (data : List Byte) (packets : Nat)
    (hp : 256 ≤ packets) (hlen : packets * 104 ≤ data.length) :
    ∀ (fuel i : Nat) (v : List motion_event), i < 256 →
      packet_loop ids data packets fuel i v = Except.error Stop.out_of_fuel := by
  intro fuel
  induction fuel with
  | zero => intro i v _; rfl
  | succ fuel ih =>
    intro i v hi
    have hlt : i < packets := by omega
    obtain ⟨r, hr⟩ := parse_packet_ok ids data (i * motion_packet_size) (by
      rw [motion_packet_size_eq]
      have : (i + 1) * 104 ≤ packets * 104 := Nat.mul_le_mul_right 104 hlt
      omega)
    unfold packet_loop
    rw [if_pos hlt, hr, except_ok_bind]
    exact ih _ _ (Nat.mod_lt _ (by decide))

theorem decode_never_returns (ids : EventSources) (fuel : Nat) (data : List Byte)
    (hp : 256 ≤ data.length / 104 % 65536) :
    decode ids fuel data = Except.error Stop.out_of_fuel := by
  unfold decode
  rw [motion_packet_size_eq]
  simp only []
  rw [if_pos (by omega)]
  apply packet_loop_never_returns ids data _ hp _ fuel 0 [] (by decide)
  have h1 : data.length / 104 % 65536 ≤ data.length / 104 := Nat.mod_le _ _
  have h2 : data.length / 104 * 104 ≤ data.length := Nat.div_mul_le_self _ _
  have h3 := Nat.mul_le_mul_right 104 h1
  omega

theorem packet_loop_returns (ids : EventSources) (data : List Byte) (packets : Nat)
    (hp : packets < 256) (hlen : packets * 104 ≤ data.length) :
    ∀ (fuel i : Nat) (v : List motion_event), i ≤ packets → packets - i < fuel →
      packet_loop ids data packets fuel i v =
        Except.ok (v ++ (List.range' i (packets - i)).filterMap (packetEvent ids data)) := by
  intro fuel
  induction fuel with
  | zero => intro i v _ hf; omega
  | succ fuel ih =>
    intro i v hi hf
    unfold packet_loop
    by_cases hlt : i < packets
    · obtain ⟨r, hr⟩ := parse_packet_ok ids data (i * motion_packet_size) (by
        rw [motion_packet_size_eq]
        have : (i + 1) * 104 ≤ packets * 104 := Nat.mul_le_mul_right 104 hlt
        omega)
      have hev : packetEvent ids data i = r := by
        unfold packetEvent
        rw [hr]
      have hmod : (i + 1) % 256 = i + 1 := Nat.mod_eq_of_lt (by omega)
      have hsplit : packets - i = (packets - (i + 1)) + 1 := by omega
      rw [if_pos hlt, hr, except_ok_bind, hmod, ih (i + 1) _ (by omega) (by omega), hsplit,
        List.range'_succ, List.filterMap_cons, hev]
      cases r with
      | none => rfl
      | some e => simp
    · have h0 : packets - i = 0 := by omega
      rw [if_neg hlt, h0]
      simp [pure, Except.pure]

theorem decode_returns (ids : EventSources) (fuel : Nat) (data : List Byte)
    (hp : data.length / 104 < 256) (hf : data.length / 104 < fuel) :
    decode ids fuel data =
      Except.ok ((List.range (data.length / 104)).filterMap (packetEvent ids data)) := by
  have hmod : data.length / 104 % 65536 = data.length / 104 := Nat.mod_eq_of_lt (by omega)
  unfold decode
  rw [motion_packet_size_eq, hmod]
  simp only []
  split_ifs with h0
  · rw [packet_loop_returns ids data _ hp (Nat.div_mul_le_self _ _) fuel 0 [] (Nat.zero_le _)
      (by omega), List.range_eq_range']
    simp
  · have hz : data.length / 104 = 0 := by omega
    rw [hz]
    rfl

/-! ## Packet decoder: the claims -/

/-- C7, at a failing input: on a buffer of exactly `256 * 104` zero bytes, in which
every one of the 256 headers is valid, the run of `decode` never returns, whatever
the fuel: the 8-bit loop counter wraps from 255 to 0 and never reaches the packet
count 256, so no sequence of 256 events is produced. -/
theorem decode_256_packets_never_returns (ids : EventSources) (fuel : Nat) :
    decode ids fuel (List.replicate (256 * 104) 0) = Except.error Stop.out_of_fuel :=
  decode_never_returns ids fuel _ (by rw [List.length_replicate])

/-- C8, at a failing input: on a buffer of 256 packets, the first with a header
declaring five inertial entries and the other 255 all zero (valid), the run of
`decode` never returns, whatever the fuel, so the 255 events of the valid packets
are never produced. -/
theorem decode_bad_header_then_255_never_returns (ids : EventSources) (fuel : Nat) :
    decode ids fuel (badHeaderPacket ++ List.replicate (255 * 104) 0)
      = Except.error Stop.out_of_fuel :=
  decode_never_returns ids fuel _ (by
    rw [List.length_append, List.length_replicate]; decide)

/-- C9: on a buffer shorter than 104 bytes, the empty buffer included, `decode`
returns the empty sequence (the packet loop is not entered, so this holds for any
fuel). -/
theorem decode_short_buffer_empty (ids : EventSources) (fuel : Nat) (data : List Byte)
    (hlen : data.length < 104) : decode ids fuel data = Except.ok [] := by
  unfold decode
  rw [motion_packet_size_eq]
  have h0 : data.length / 104 % 65536 = 0 := by
    rw [Nat.div_eq_of_lt hlen]
  simp [h0, pure, Except.pure]

theorem decode_short_buffer_empty_witness :
    (List.replicate 103 (7 : Byte)).length < 104 ∧
    decode ⟨0, 1⟩ 0 (List.replicate 103 (7 : Byte)) = Except.ok [] :=
  ⟨by decide, decode_short_buffer_empty ⟨0, 1⟩ 0 (List.replicate 103 7) (by decide)⟩

/-- C10: the packet size is `8 + 4 * 12 + 8 * 6 = 104`; a run of `decode` on a buffer
gives what the same run gives on the prefix of length `104 * floor(n / 104)` of the
buffer; and appending fewer than 104 bytes to a buffer whose length is a multiple of
104 does not change what `decode` gives. -/
theorem decode_ignores_trailing_bytes (ids : EventSources) (fuel : Nat) :
    motion_packet_size = 8 + 4 * 12 + 8 * 6 ∧ motion_packet_size = 104 ∧
    (∀ b : List Byte, decode ids fuel b = decode ids fuel (b.take (104 * (b.length / 104)))) ∧
    (∀ a t : List Byte, a.length % 104 = 0 → t.length < 104 →
      decode ids fuel (a ++ t) = decode ids fuel a) := by
  refine ⟨by decide, by decide, decode_take ids fuel, ?_⟩
  intro a t ha ht
  have hq : (a ++ t).length / 104 = a.length / 104 := by
    rw [List.length_append]; omega
  have hm : 104 * (a.length / 104) = a.length := by omega
  rw [decode_take ids fuel (a ++ t), hq, hm, List.take_left]

theorem decode_ignores_trailing_bytes_witness :
    decode ⟨0, 1⟩ 5 (List.replicate 104 (0 : Byte) ++ [1, 2, 3])
      = decode ⟨0, 1⟩ 5 (List.replicate 104 (0 : Byte)) :=
  (decode_ignores_trailing_bytes ⟨0, 1⟩ 5).2.2.2 (List.replicate 104 0) [1, 2, 3]
    (by decide) (by decide)

/-- C11, at a failing input: on a buffer of 300 packets of zero bytes the run of
`decode` does not terminate, whatever the fuel: the 8-bit counter is back at 0 after
index 255 and stays below the packet count 300, so the indices 0 to 255 are visited
again and again and the indices 256 to 299 never. -/
theorem decode_300_packets_never_returns (ids : EventSources) (fuel : Nat) :
    decode ids fuel (List.replicate (300 * 104) 0) = Except.error Stop.out_of_fuel :=
  decode_never_returns ids fuel _ (by rw [List.length_replicate]; decide)

/-! ## Entry decoders: lemmas -/

theorem lo_hi_word (lo hi : Nat) (hlo : lo < 256) (hhi : hi < 256) :
    ((hi <<< 8) ||| lo) % 65536 = lo + 256 * hi := by
  have h1 : hi <<< 8 = 2 ^ 8 * hi := by rw [Nat.shiftLeft_eq, Nat.mul_comm]
  rw [h1, ← Nat.mul_add_lt_is_or (by simpa using hlo) hi]
  omega

theorem word_source_id (w : Nat) : w &&& 0x7 = w % 8 :=
  Nat.and_pow_two_sub_one_eq_mod w 3

theorem word_frame_number (w : Nat) : ((w &&& 0x7fff) >>> 3) % 65536 = w / 8 % 4096 := by
  have h : w &&& 0x7fff = w % 32768 := Nat.and_pow_two_sub_one_eq_mod w 15
  rw [h, Nat.shiftRight_eq_div_pow]
  omega

theorem parse_timestamp_bytes (b0 b1 b2 b3 b4 b5 : Byte) :
    parse_timestamp [b0, b1, b2, b3, b4, b5] 0 =
      Except.ok { source_id := (b0.val + 256 * b1.val) % 8,
                  frame_number := (b0.val + 256 * b1.val) / 8 % 4096,
                  timestamp := b2.val + 256 * b3.val + 65536 * b4.val + 16777216 * b5.val } := by
  have e : parse_timestamp [b0, b1, b2, b3, b4, b5] 0 =
      Except.ok { source_id := (((b1.val <<< 8) ||| b0.val) % 65536) &&& 0x7,
                  frame_number := (((((b1.val <<< 8) ||| b0.val) % 65536) &&& 0x7fff) >>> 3) % 65536,
                  timestamp := b2.val + 256 * b3.val + 65536 * b4.val + 16777216 * b5.val } := rfl
  rw [e, word_source_id, word_frame_number, lo_hi_word b0.val b1.val b0.isLt b1.isLt]

theorem readByte_field (data : List Byte) (off n k : Nat) (hk : k < n) :
    readByte data (off + k) = readByte ((data.drop off).take n) k :=
  readByte_congr _ _ _ _ (by rw [List.getElem?_take_of_lt hk, List.getElem?_drop])

theorem parse_timestamp_field (data : List Byte) (off : Nat) :
    parse_timestamp data off = parse_timestamp ((data.drop off).take 6) 0 := by
  have h0 := readByte_field data off 6 0 (by decide)
  have h1 := readByte_field data off 6 1 (by decide)
  have h2 := readByte_field data off 6 2 (by decide)
  have h3 := readByte_field data off 6 3 (by decide)
  have h4 := readByte_field data off 6 4 (by decide)
  have h5 := readByte_field data off 6 5 (by decide)
  simp only [Nat.add_zero] at h0
  simp only [parse_timestamp, readU32, Nat.add_assoc, Nat.zero_add, Nat.reduceAdd, h0, h1, h2,
    h3, h4, h5]

/-- C13: for a field of six bytes `b0 .. b5` found at any offset of any buffer, with
`w = b0 + 256 * b1`, `parse_timestamp` gives `source_id = w mod 8`,
`frame_number = floor(w / 8) mod 4096` (so below 4096, bit 15 of `w` plays no part)
and `timestamp = b2 + 2^8 * b3 + 2^16 * b4 + 2^24 * b5`. -/
theorem parse_timestamp_layout (data : List Byte) (off : Nat) (b0 b1 b2 b3 b4 b5 : Byte)
    (hfield : (data.drop off).take 6 = [b0, b1, b2, b3, b4, b5]) :
    parse_timestamp data off =
      Except.ok { source_id := (b0.val + 256 * b1.val) % 8,
                  frame_number := (b0.val + 256 * b1.val) / 8 % 4096,
                  timestamp := b2.val + 2 ^ 8 * b3.val + 2 ^ 16 * b4.val + 2 ^ 24 * b5.val } ∧
    (b0.val + 256 * b1.val) / 8 % 4096 < 4096 ∧
    (b0.val + 256 * b1.val) / 8 % 4096 = (b0.val + 256 * (b1.val % 128)) / 8 := by
  rw [parse_timestamp_field, hfield, parse_timestamp_bytes]
  refine ⟨rfl, Nat.mod_lt _ (by decide), ?_⟩
  have h0 := b0.isLt
  have h1 := b1.isLt
  omega

theorem parse_timestamp_layout_witness :
    parse_timestamp [9, 9, 0x0a, 0x80, 1, 2, 3, 4, 9] 2 =
      Except.ok { source_id := 2, frame_number := 1, timestamp := 67305985 } :=
  (parse_timestamp_layout [9, 9, 0x0a, 0x80, 1, 2, 3, 4, 9] 2 0x0a 0x80 1 2 3 4 rfl).1

theorem parse_motion_field (ids : EventSources) (data : List Byte) (off : Nat) :
    parse_motion ids data off = parse_motion ids ((data.drop off).take 12) 0 := by
  have h0 := readByte_field data off 12 0 (by decide)
  have h1 := readByte_field data off 12 1 (by decide)
  have h2 := readByte_field data off 12 2 (by decide)
  have h3 := readByte_field data off 12 3 (by decide)
  have h4 := readByte_field data off 12 4 (by decide)
  have h5 := readByte_field data off 12 5 (by decide)
  have h6 := readByte_field data off 12 6 (by decide)
  have h7 := readByte_field data off 12 7 (by decide)
  have h8 := readByte_field data off 12 8 (by decide)
  have h9 := readByte_field data off 12 9 (by decide)
  have h10 := readByte_field data off 12 10 (by decide)
  have h11 := readByte_field data off 12 11 (by decide)
  simp only [Nat.add_zero] at h0
  simp only [parse_motion, parse_timestamp, readU32, readI16, readU16, Nat.add_assoc,
    Nat.zero_add, Nat.reduceAdd, h0, h1, h2, h3, h4, h5, h6, h7, h8, h9, h10, h11]

theorem int16_range (lo hi : Nat) (hlo : lo < 256) (hhi : hi < 256) :
    -32768 ≤ (if lo + 256 * hi < 32768 then ((lo + 256 * hi : Nat) : Int)
              else ((lo + 256 * hi : Nat) : Int) - 65536) ∧
    (if lo + 256 * hi < 32768 then ((lo + 256 * hi : Nat) : Int)
      else ((lo + 256 * hi : Nat) : Int) - 65536) ≤ 32767 ∧
    (if lo + 256 * hi < 32768 then ((lo + 256 * hi : Nat) : Int)
      else ((lo + 256 * hi : Nat) : Int) - 65536) % 65536 = ((lo + 256 * hi : Nat) : Int) := by
  split_ifs <;> omega

/-- C14: for a field of twelve bytes `b0 .. b11` found at any offset of any buffer,
`parse_motion` gives a sample whose `source_id`, `frame_number` and `timestamp` are
those of `parse_timestamp` on the first six bytes, whose `is_valid` is
`floor(b1 / 128)` (1 exactly when `b1 >= 128`), and whose three axes are converted
from raw readings `r0, r1, r2` that are the two's-complement values of the byte
pairs (6,7), (8,9), (10,11): each lies in `[-32768, 32767]` and is congruent modulo
`65536` to `lo + 256 * hi`. -/
theorem parse_motion_layout (ids : EventSources) (data : List Byte) (off : Nat)
    (b0 b1 b2 b3 b4 b5 b6 b7 b8 b9 b10 b11 : Byte)
    (hfield : (data.drop off).take 12 = [b0, b1, b2, b3, b4, b5, b6, b7, b8, b9, b10, b11]) :
    ∃ (ts : rs_timestamp_data) (r0 r1 r2 : Int),
      parse_timestamp [b0, b1, b2, b3, b4, b5] 0 = Except.ok ts ∧
      parse_motion ids data off =
        Except.ok { timestamp_data := ts,
                    is_valid := b1.val / 128,
                    axes := [convert_axis ids ts.source_id r0, convert_axis ids ts.source_id r1,
                             convert_axis ids ts.source_id r2] } ∧
      (b1.val / 128 = if 128 ≤ b1.val then 1 else 0) ∧
      (-32768 ≤ r0 ∧ r0 ≤ 32767 ∧ r0 % 65536 = ((b6.val + 256 * b7.val : Nat) : Int)) ∧
      (-32768 ≤ r1 ∧ r1 ≤ 32767 ∧ r1 % 65536 = ((b8.val + 256 * b9.val : Nat) : Int)) ∧
      (-32768 ≤ r2 ∧ r2 ≤ 32767 ∧ r2 % 65536 = ((b10.val + 256 * b11.val : Nat) : Int)) := by
  rw [parse_motion_field, hfield]
  have hv : b1.val / 128 = b1.val >>> 7 := by rw [Nat.shiftRight_eq_div_pow]
  refine ⟨_, _, _, _, rfl, ?_, ?_, int16_range b6.val b7.val b6.isLt b7.isLt,
    int16_range b8.val b9.val b8.isLt b9.isLt, int16_range b10.val b11.val b10.isLt b11.isLt⟩
  · rw [hv]
    rfl
  · have h1 := b1.isLt
    split_ifs <;> omega

theorem parse_motion_layout_witness :
    ∃ (ts : rs_timestamp_data) (r0 r1 r2 : Int),
      parse_timestamp [0x0a, 0x80, 1, 0, 0, 0] 0 = Except.ok ts ∧
      parse_motion ⟨1, 2⟩ [0x0a, 0x80, 1, 0, 0, 0, 100, 0, 0x9c, 0xff, 0, 0] 0 =
        Except.ok { timestamp_data := ts,
                    is_valid := (0x80 : Byte).val / 128,
                    axes := [convert_axis ⟨1, 2⟩ ts.source_id r0,
                             convert_axis ⟨1, 2⟩ ts.source_id r1,
                             convert_axis ⟨1, 2⟩ ts.source_id r2] } ∧
      ((0x80 : Byte).val / 128 = if 128 ≤ (0x80 : Byte).val then 1 else 0) ∧
      (-32768 ≤ r0 ∧ r0 ≤ 32767 ∧
        r0 % 65536 = (((100 : Byte).val + 256 * (0 : Byte).val : Nat) : Int)) ∧
      (-32768 ≤ r1 ∧ r1 ≤ 32767 ∧
        r1 % 65536 = (((0x9c : Byte).val + 256 * (0xff : Byte).val : Nat) : Int)) ∧
      (-32768 ≤ r2 ∧ r2 ≤ 32767 ∧
        r2 % 65536 = (((0 : Byte).val + 256 * (0 : Byte).val : Nat) : Int)) :=
  parse_motion_layout ⟨1, 2⟩ [0x0a, 0x80, 1, 0, 0, 0, 100, 0, 0x9c, 0xff, 0, 0] 0
    0x0a 0x80 1 0 0 0 100 0 0x9c 0xff 0 0 rfl

theorem floor_div_16 (r : Int) : ⌊(r : ℚ) / 16⌋ = r / 16 := by
  have h := Rat.floor_intCast_div_natCast r 16
  simpa using h

theorem shift_4_eq_floor (r : Int) : r >>> (4 : Nat) = ⌊(r : ℚ) / 16⌋ := by
  rw [floor_div_16]
  simpa using Int.shiftRight_eq_div_pow r 4

theorem shift_0_eq (r : Int) : r >>> (0 : Nat) = r := by
  simpa using Int.shiftRight_eq_div_pow r 0

theorem convert_axis_gyro (ids : EventSources) (r : Int)
    (ha : ids.RS_IMU_GYRO ≠ ids.RS_IMU_ACCEL) :
    convert_axis ids ids.RS_IMU_GYRO r = (r : ℚ) * gyro_transform_factor := by
  have ha1 : ¬ ids.RS_IMU_ACCEL = ids.RS_IMU_GYRO := fun h => ha h.symm
  unfold convert_axis
  simp only [ha1, if_true, if_false, shift_0_eq]

/-- C15: for a raw reading `r` of an axis (a signed 16-bit value) and the entry's
`source_id`: when the source is the accelerometer, the integer that is converted is
`r >> 4 = floor(r / 16)`, which lies in `[-2048, 2047]`, and it is multiplied by the
accelerometer factor; when the source is not the accelerometer the integer is `r`
itself, multiplied by the gyroscope factor for the gyroscope and left as it is, so
that the axis equals `r` exactly, for every other source. -/
theorem convert_axis_shift (ids : EventSources) (source_id : Nat) (r : Int)
    (hr : -32768 ≤ r ∧ r ≤ 32767) :
    (source_id = ids.RS_IMU_ACCEL →
      r >>> (4 : Nat) = ⌊(r : ℚ) / 16⌋ ∧ -2048 ≤ ⌊(r : ℚ) / 16⌋ ∧ ⌊(r : ℚ) / 16⌋ ≤ 2047 ∧
      convert_axis ids source_id r =
        ((⌊(r : ℚ) / 16⌋ : Int) : ℚ) * accelerator_transform_factor *
          (if ids.RS_IMU_GYRO = source_id then gyro_transform_factor else 1)) ∧
    (source_id ≠ ids.RS_IMU_ACCEL → source_id = ids.RS_IMU_GYRO →
      convert_axis ids source_id r = (r : ℚ) * gyro_transform_factor) ∧
    (source_id ≠ ids.RS_IMU_ACCEL → source_id ≠ ids.RS_IMU_GYRO →
      convert_axis ids source_id r = (r : ℚ)) := by
  refine ⟨?_, ?_, ?_⟩
  · intro ha
    subst ha
    have hf := floor_div_16 r
    refine ⟨shift_4_eq_floor r, by omega, by omega, ?_⟩
    rw [← shift_4_eq_floor]
    unfold convert_axis
    simp only [if_true]
    split_ifs <;> ring
  · intro ha hg
    subst hg
    exact convert_axis_gyro ids r ha
  · intro ha hg
    have ha1 : ¬ ids.RS_IMU_ACCEL = source_id := fun h => ha h.symm
    have hg1 : ¬ ids.RS_IMU_GYRO = source_id := fun h => hg h.symm
    unfold convert_axis
    simp only [ha1, hg1, if_false, shift_0_eq]

theorem convert_axis_shift_witness :
    convert_axis ⟨1, 2⟩ 1 (-100) = ((-7 : Int) : ℚ) * accelerator_transform_factor ∧
    convert_axis ⟨1, 2⟩ 5 (-100) = ((-100 : Int) : ℚ) := by
  have h := convert_axis_shift ⟨1, 2⟩ 1 (-100) (by decide)
  have h5 := convert_axis_shift ⟨1, 2⟩ 5 (-100) (by decide)
  refine ⟨?_, h5.2.2 (by decide) (by decide)⟩
  have h1 := (h.1 rfl).2.2.2
  have hfl : ⌊((-100 : Int) : ℚ) / 16⌋ = -7 := by rw [floor_div_16]; rfl
  rw [hfl] at h1
  simpa using h1

/-- C16, at a failing input: the factor the code applies to gyroscope readings is
built from the literal `3.141527`, not from the circle constant: it is smaller than
`2000 * π / (180 * 32768)` by more than two parts in `10^5`, so a gyroscope reading
of `100` decodes to less than `100 * 2000 * π / (180 * 32768)`; the accelerometer
factor is `0.00195 * 9.871`, as claimed. -/
theorem gyro_factor_is_not_pi :
    ((gyro_transform_factor : ℚ) : ℝ) * (1 + 1 / 50000) < 2000 * Real.pi / (180 * 32768) ∧
    ((convert_axis ⟨1, 2⟩ 2 100 : ℚ) : ℝ) < 100 * (2000 * Real.pi / (180 * 32768)) ∧
    gyro_transform_factor = 2000 * 3.141527 / (180 * 32768) ∧
    accelerator_transform_factor = 0.00195 * 9.871 := by
  have hpi := Real.pi_gt_d6
  have hg : ((gyro_transform_factor : ℚ) : ℝ) = 2000 * 3.141527 / (180 * 32768) := by
    unfold gyro_transform_factor gyro_range
    push_cast
    norm_num
  have hc : convert_axis ⟨1, 2⟩ 2 100 = 100 * gyro_transform_factor := by
    rw [convert_axis_gyro ⟨1, 2⟩ 100 (by decide)]
    norm_num
  refine ⟨?_, ?_, rfl, rfl⟩
  · rw [hg, div_mul_eq_mul_div, div_lt_div_iff_of_pos_right (by norm_num)]
    norm_num at hpi ⊢
    linarith
  · rw [hc]
    push_cast
    rw [hg, mul_lt_mul_left (by norm_num), div_lt_div_iff_of_pos_right (by norm_num)]
    norm_num at hpi ⊢
    linarith

/-! ## Packet decoder: the slots of an event -/

theorem imu_loop_slots (ids : EventSources) (data : List Byte) (cur_packet : Nat)
    (ev0 : motion_event) (n : Nat) (hn : n ≤ ev0.imu_packets.length) :
    ∀ r, (List.range n).foldlM (fun (ev : motion_event) (j : Nat) => do
        let m ← parse_motion ids data
          (cur_packet + (motion_packet_header_size + j * imu_entry_size))
        pure { ev with imu_packets := ev.imu_packets.set j m }) ev0 = Except.ok r →
      r.imu_packets.length = ev0.imu_packets.length ∧
      (∀ j, j < n → ∃ m, parse_motion ids data
          (cur_packet + (motion_packet_header_size + j * imu_entry_size)) = Except.ok m ∧
        r.imu_packets[j]? = some m) ∧
      (∀ j, n ≤ j → r.imu_packets[j]? = ev0.imu_packets[j]?) := by
  induction n with
  | zero =>
    intro r hr
    have : ev0 = r := by simpa [pure, Except.pure] using hr
    subst this
    exact ⟨rfl, fun j hj => absurd hj (Nat.not_lt_zero j), fun _ _ => rfl⟩
  | succ n ih =>
    intro r hr
    rw [List.range_succ, List.foldlM_append] at hr
    cases h1 : (List.range n).foldlM (fun (ev : motion_event) (j : Nat) => do
        let m ← parse_motion ids data
          (cur_packet + (motion_packet_header_size + j * imu_entry_size))
        pure { ev with imu_packets := ev.imu_packets.set j m }) ev0 with
    | error e => rw [h1] at hr; cases hr
    | ok r1 =>
      obtain ⟨hlen, hlt, hge⟩ := ih (by omega) r1 h1
      rw [h1, except_ok_bind, List.foldlM_cons] at hr
      simp only [List.foldlM_nil] at hr
      cases hm : parse_motion ids data
          (cur_packet + (motion_packet_header_size + n * imu_entry_size)) with
      | error e => rw [hm] at hr; cases hr
      | ok m =>
        rw [hm] at hr
        have hr1 : ({ r1 with imu_packets := r1.imu_packets.set n m } : motion_event) = r := by
          simpa [bind, Except.bind, pure, Except.pure] using hr
        subst hr1
        refine ⟨by simpa using hlen, ?_, ?_⟩
        · intro j hj
          by_cases hjn : j = n
          · subst hjn
            exact ⟨m, hm, List.getElem?_set_self (by omega)⟩
          · obtain ⟨m1, hm1, hs1⟩ := hlt j (by omega)
            exact ⟨m1, hm1, by
              show (r1.imu_packets.set n m)[j]? = some m1
              rw [List.getElem?_set_ne (fun h => hjn h.symm)]; exact hs1⟩
        · intro j hj
          show (r1.imu_packets.set n m)[j]? = ev0.imu_packets[j]?
          rw [List.getElem?_set_ne (by omega)]
          exact hge j (by omega)

theorem non_imu_loop_slots (data : List Byte) (cur_packet : Nat)
    (ev0 : motion_event) (n : Nat) (hn : n ≤ ev0.non_imu_packets.length) :
    ∀ r, (List.range n).foldlM (fun (ev : motion_event) (j : Nat) => do
        let t ← parse_timestamp data
          (cur_packet + (non_imu_data_offset + j * non_imu_entry_size))
        pure { ev with non_imu_packets := ev.non_imu_packets.set j t }) ev0 = Except.ok r →
      r.error_state = ev0.error_state ∧ r.status = ev0.status ∧
      r.imu_entries_num = ev0.imu_entries_num ∧
      r.non_imu_entries_num = ev0.non_imu_entries_num ∧
      r.imu_packets = ev0.imu_packets ∧
      r.non_imu_packets.length = ev0.non_imu_packets.length ∧
      (∀ j, j < n → ∃ t, parse_timestamp data
          (cur_packet + (non_imu_data_offset + j * non_imu_entry_size)) = Except.ok t ∧
        r.non_imu_packets[j]? = some t) ∧
      (∀ j, n ≤ j → r.non_imu_packets[j]? = ev0.non_imu_packets[j]?) := by
  induction n with
  | zero =>
    intro r hr
    have : ev0 = r := by simpa [pure, Except.pure] using hr
    subst this
    exact ⟨rfl, rfl, rfl, rfl, rfl, rfl, fun j hj => absurd hj (Nat.not_lt_zero j),
      fun _ _ => rfl⟩
  | succ n ih =>
    intro r hr
    rw [List.range_succ, List.foldlM_append] at hr
    cases h1 : (List.range n).foldlM (fun (ev : motion_event) (j : Nat) => do
        let t ← parse_timestamp data
          (cur_packet + (non_imu_data_offset + j * non_imu_entry_size))
        pure { ev with non_imu_packets := ev.non_imu_packets.set j t }) ev0 with
    | error e => rw [h1] at hr; cases hr
    | ok r1 =>
      obtain ⟨he, hs, hi, hni, hip, hlen, hlt, hge⟩ := ih (by omega) r1 h1
      rw [h1, except_ok_bind, List.foldlM_cons] at hr
      simp only [List.foldlM_nil] at hr
      cases hm : parse_timestamp data
          (cur_packet + (non_imu_data_offset + n * non_imu_entry_size)) with
      | error e => rw [hm] at hr; cases hr
      | ok t =>
        rw [hm] at hr
        have hr1 : ({ r1 with non_imu_packets := r1.non_imu_packets.set n t } : motion_event)
            = r := by
          simpa [bind, Except.bind, pure, Except.pure] using hr
        subst hr1
        refine ⟨he, hs, hi, hni, hip, by simpa using hlen, ?_, ?_⟩
        · intro j hj
          by_cases hjn : j = n
          · subst hjn
            exact ⟨t, hm, List.getElem?_set_self (by omega)⟩
          · obtain ⟨t1, ht1, hs1⟩ := hlt j (by omega)
            exact ⟨t1, ht1, by
              show (r1.non_imu_packets.set n t)[j]? = some t1
              rw [List.getElem?_set_ne (fun h => hjn h.symm)]; exact hs1⟩
        · intro j hj
          show (r1.non_imu_packets.set n t)[j]? = ev0.non_imu_packets[j]?
          rw [List.getElem?_set_ne (by omega)]
          exact hge j (by omega)

theorem readU16_inv (data : List Byte) (off v : Nat) (h : readU16 data off = Except.ok v) :
    ∃ lo hi : Byte, data[off]? = some lo ∧ data[off + 1]? = some hi ∧
      v = lo.val + 256 * hi.val := by
  unfold readU16 readByte at h
  cases h0 : data[off]? with
  | none => rw [h0] at h; cases h
  | some lo =>
    cases h1 : data[off + 1]? with
    | none => rw [h0, h1] at h; cases h
    | some hi =>
      rw [h0, h1] at h
      refine ⟨lo, hi, rfl, rfl, ?_⟩
      have : lo.val + 256 * hi.val = v := by
        simpa [bind, Except.bind, pure, Except.pure] using h
      exact this.symm

set_option maxRecDepth 100000 in
theorem parse_packet_gyroPacket :
    parse_packet ⟨1, 2⟩ gyroPacket 0 = Except.ok (some gyroEvent) := by
  have e : parse_packet ⟨1, 2⟩ gyroPacket 0 = Except.ok (some
      { zero_event with
        imu_entries_num := 1,
        imu_packets :=
          [{ timestamp_data := { timestamp := 0, source_id := 2, frame_number := 0 },
             is_valid := 1,
             axes := [convert_axis ⟨1, 2⟩ 2 100, convert_axis ⟨1, 2⟩ 2 (-100),
                      convert_axis ⟨1, 2⟩ 2 0] },
           zero_motion_data, zero_motion_data, zero_motion_data] }) := rfl
  have hg : ∀ r : Int, convert_axis ⟨1, 2⟩ 2 r = (r : ℚ) * gyro_transform_factor :=
    fun r => convert_axis_gyro ⟨1, 2⟩ r (by decide)
  rw [e, hg, hg, hg]
  simp [gyroEvent]

theorem parse_packet_slots (ids : EventSources) (data : List Byte) (cur_packet : Nat)
    (ev : motion_event) (h : parse_packet ids data cur_packet = Except.ok (some ev)) :
    (∃ b0 b1 b2 b3 b4 b5 b6 b7 : Byte,
      (data.drop cur_packet).take 8 = [b0, b1, b2, b3, b4, b5, b6, b7] ∧
      ev.error_state = b0.val + 256 * b1.val ∧ ev.status = b2.val + 256 * b3.val ∧
      ev.imu_entries_num = b4.val + 256 * b5.val ∧
      ev.non_imu_entries_num = b6.val + 256 * b7.val) ∧
    ev.imu_entries_num ≤ 4 ∧ ev.non_imu_entries_num ≤ 8 ∧
    ev.imu_packets.length = 4 ∧ ev.non_imu_packets.length = 8 ∧
    (∀ j, j < ev.imu_entries_num → ∃ m,
      parse_motion ids ((data.drop (cur_packet + (8 + 12 * j))).take 12) 0 = Except.ok m ∧
      ev.imu_packets[j]? = some m) ∧
    (∀ j, j < ev.non_imu_entries_num → ∃ t,
      parse_timestamp ((data.drop (cur_packet + (56 + 6 * j))).take 6) 0 = Except.ok t ∧
      ev.non_imu_packets[j]? = some t) ∧
    (∀ j, ev.imu_entries_num ≤ j → j < 4 → ev.imu_packets[j]? = some zero_motion_data) ∧
    (∀ j, ev.non_imu_entries_num ≤ j → j < 8 →
      ev.non_imu_packets[j]? = some { timestamp := 0, source_id := 0, frame_number := 0 }) := by
  unfold parse_packet at h
  cases he : readU16 data (cur_packet + 0) with
  | error e => rw [he] at h; cases h
  | ok e =>
  cases hs : readU16 data (cur_packet + 2) with
  | error e => rw [he, hs] at h; cases h
  | ok st =>
  cases hn : readU16 data (cur_packet + 4) with
  | error e => rw [he, hs, hn] at h; cases h
  | ok n =>
  cases hm : readU16 data (cur_packet + 6) with
  | error e => rw [he, hs, hn, hm] at h; cases h
  | ok m =>
  rw [he, except_ok_bind, hs, except_ok_bind, hn, except_ok_bind, hm, except_ok_bind] at h
  simp only [imu_data_entries, non_imu_data_entries] at h
  split_ifs at h with hc
  · cases h1 : parse_imu_entries ids data cur_packet
        { zero_event with error_state := e, status := st, imu_entries_num := n,
                          non_imu_entries_num := m } with
    | error e1 => rw [h1] at h; cases h
    | ok ev1 =>
      rw [h1, except_ok_bind] at h
      cases h2 : parse_non_imu_entries data cur_packet ev1 with
      | error e2 => rw [h2] at h; cases h
      | ok ev2 =>
        rw [h2, except_ok_bind] at h
        have hev : ev2 = ev := by
          simpa [pure, Except.pure] using h
        subst hev
        obtain ⟨hd1, hd2, hd3, hd4, hd5⟩ := parse_imu_entries_header ids data cur_packet _ ev1 h1
        have hs1 := imu_loop_slots ids data cur_packet
          { zero_event with error_state := e, status := st, imu_entries_num := n,
                            non_imu_entries_num := m } n
          (by simp [zero_event]; exact hc.1) ev1 h1
        have hs2 := non_imu_loop_slots data cur_packet ev1 ev1.non_imu_entries_num
          (by rw [hd4, hd5]; simp [zero_event]; exact hc.2) ev2 h2
        obtain ⟨hl1, hlt1, hge1⟩ := hs1
        obtain ⟨g1, g2, g3, g4, g5, hl2, hlt2, hge2⟩ := hs2
        simp only at hd1 hd2 hd3 hd4 hd5
        obtain ⟨c0, c1, hc0, hc1, hce⟩ := readU16_inv data _ e he
        obtain ⟨c2, c3, hc2, hc3, hcs⟩ := readU16_inv data _ st hs
        obtain ⟨c4, c5, hc4, hc5, hcn⟩ := readU16_inv data _ n hn
        obtain ⟨c6, c7, hc6, hc7, hcm⟩ := readU16_inv data _ m hm
        refine ⟨⟨c0, c1, c2, c3, c4, c5, c6, c7, ?_, ?_, ?_, ?_, ?_⟩, ?_, ?_, ?_, ?_, ?_, ?_,
          ?_, ?_⟩
        · apply List.ext_getElem?
          intro k
          by_cases hk : k < 8
          · rw [List.getElem?_take_of_lt hk, List.getElem?_drop]
            interval_cases k
            · simpa using hc0
            · simpa using hc1
            · simpa using hc2
            · simpa using hc3
            · simpa using hc4
            · simpa using hc5
            · simpa using hc6
            · simpa using hc7
          · rw [List.getElem?_eq_none (by simp; omega), List.getElem?_eq_none (by simp; omega)]
        · rw [g1, hd1]; exact hce
        · rw [g2, hd2]; exact hcs
        · rw [g3, hd3]; exact hcn
        · rw [g4, hd4]; exact hcm
        · rw [g3, hd3]; exact hc.1
        · rw [g4, hd4]; exact hc.2
        · rw [g5, hl1]; simp [zero_event]
        · rw [hl2, hd5]; simp [zero_event]
        · intro j hj
          rw [g3, hd3] at hj
          obtain ⟨mj, hmj, hsj⟩ := hlt1 j hj
          refine ⟨mj, ?_, by rw [g5]; exact hsj⟩
          rw [← parse_motion_field]
          simp only [motion_packet_header_size, imu_entry_size] at hmj
          rw [Nat.mul_comm 12 j]
          exact hmj
        · intro j hj
          obtain ⟨tj, htj, hsj⟩ := hlt2 j (by rw [← g4]; exact hj)
          refine ⟨tj, ?_, hsj⟩
          rw [← parse_timestamp_field]
          have hoff : non_imu_data_offset = 56 := by decide
          simp only [hoff, non_imu_entry_size] at htj
          rw [Nat.mul_comm 6 j]
          exact htj
        · intro j hj hj4
          rw [g3, hd3] at hj
          rw [g5, hge1 j hj]
          show (List.replicate 4 zero_motion_data)[j]? = some zero_motion_data
          rw [List.getElem?_replicate_of_lt hj4]
        · intro j hj hj8
          rw [hge2 j (by rw [← g4]; exact hj), hd5]
          show (List.replicate 8 ({ timestamp := 0, source_id := 0, frame_number := 0 } :
            rs_timestamp_data))[j]? = some { timestamp := 0, source_id := 0, frame_number := 0 }
          rw [List.getElem?_replicate_of_lt hj8]
  · cases h

/-- C12: for an event `ev` that the packet loop pushes for the packet at offset
`cur_packet` of a buffer: the four header fields are the little-endian 16-bit values
at offsets 0, 2, 4, 6 of the packet; the counts are at most 4 and 8; for `j` below
`imu_entries_num` the `j`-th inertial slot is `parse_motion` of the 12 bytes at
offset `8 + 12 * j`; for `j` below `non_imu_entries_num` the `j`-th timestamp slot is
`parse_timestamp` of the 6 bytes at offset `56 + 6 * j`; and the slots from the
declared counts on are zero. -/
theorem parse_packet_event (ids : EventSources) (data : List Byte) (cur_packet : Nat)
    (ev : motion_event) (h : parse_packet ids data cur_packet = Except.ok (some ev)) :
    (∃ b0 b1 b2 b3 b4 b5 b6 b7 : Byte,
      (data.drop cur_packet).take 8 = [b0, b1, b2, b3, b4, b5, b6, b7] ∧
      ev.error_state = b0.val + 256 * b1.val ∧ ev.status = b2.val + 256 * b3.val ∧
      ev.imu_entries_num = b4.val + 256 * b5.val ∧
      ev.non_imu_entries_num = b6.val + 256 * b7.val) ∧
    ev.imu_entries_num ≤ 4 ∧ ev.non_imu_entries_num ≤ 8 ∧
    ev.imu_packets.length = 4 ∧ ev.non_imu_packets.length = 8 ∧
    (∀ j, j < ev.imu_entries_num → ∃ m,
      parse_motion ids ((data.drop (cur_packet + (8 + 12 * j))).take 12) 0 = Except.ok m ∧
      ev.imu_packets[j]? = some m) ∧
    (∀ j, j < ev.non_imu_entries_num → ∃ t,
      parse_timestamp ((data.drop (cur_packet + (56 + 6 * j))).take 6) 0 = Except.ok t ∧
      ev.non_imu_packets[j]? = some t) ∧
    (∀ j, ev.imu_entries_num ≤ j → j < 4 → ev.imu_packets[j]? = some zero_motion_data) ∧
    (∀ j, ev.non_imu_entries_num ≤ j → j < 8 →
      ev.non_imu_packets[j]? = some { timestamp := 0, source_id := 0, frame_number := 0 }) :=
  parse_packet_slots ids data cur_packet ev h

theorem decode_gyroPacket : decode ⟨1, 2⟩ 2 gyroPacket = Except.ok [gyroEvent] := by
  have hlen : gyroPacket.length / 104 = 1 := by decide
  have hr : List.range 1 = [0] := rfl
  have hp : packetEvent ⟨1, 2⟩ gyroPacket 0 = some gyroEvent := by
    unfold packetEvent
    rw [Nat.zero_mul, parse_packet_gyroPacket]
  rw [decode_returns ⟨1, 2⟩ 2 gyroPacket (by rw [hlen]; decide) (by rw [hlen]; decide), hlen, hr,
    List.filterMap_cons, hp]
  rfl

theorem parse_packet_event_witness :
    decode ⟨1, 2⟩ 2 gyroPacket = Except.ok [gyroEvent] ∧
    gyroEvent.imu_entries_num = 1 ∧ gyroEvent.non_imu_entries_num = 0 ∧
    gyroEvent.imu_packets[0]?.map (fun m => m.axes)
      = some [100 * gyro_transform_factor, -100 * gyro_transform_factor, 0] ∧
    (∀ j, gyroEvent.imu_entries_num ≤ j → j < 4 →
      gyroEvent.imu_packets[j]? = some zero_motion_data) :=
  ⟨decode_gyroPacket, rfl, rfl, rfl,
    (parse_packet_event ⟨1, 2⟩ gyroPacket 0 gyroEvent parse_packet_gyroPacket).2.2.2.2.2.2.2.1⟩

/-! ## Packet decoder: reads stay inside the packet -/

theorem packet_loop_in_bounds (ids : EventSources) (data : List Byte) (packets : Nat)
    (hlen : packets * 104 ≤ data.length) :
    ∀ (fuel i : Nat) (v : List motion_event),
      packet_loop ids data packets fuel i v ≠ Except.error Stop.out_of_bounds := by
  intro fuel
  induction fuel with
  | zero => intro i v h; cases h
  | succ fuel ih =>
    intro i v
    unfold packet_loop
    by_cases hlt : i < packets
    · obtain ⟨r, hr⟩ := parse_packet_ok ids data (i * motion_packet_size) (by
        rw [motion_packet_size_eq]
        have : (i + 1) * 104 ≤ packets * 104 := Nat.mul_le_mul_right 104 hlt
        omega)
      rw [if_pos hlt, hr, except_ok_bind]
      exact ih _ _
    · rw [if_neg hlt]
      intro h
      cases h

theorem parse_packet_slice (ids : EventSources) (data : List Byte) (i : Nat) :
    parse_packet ids data (i * motion_packet_size) =
      parse_packet ids ((data.drop (104 * i)).take 104) 0 := by
  rw [motion_packet_size_eq]
  apply parse_packet_window
  intro k hk
  rw [Nat.zero_add, List.getElem?_take_of_lt hk, List.getElem?_drop, Nat.mul_comm]

/-- C18: whatever the buffer and the fuel, a run of `decode` never stops on a read
outside the buffer; for every packet index `i` below `floor(n / 104)` the loop body
returns, and it returns the same on the 104 bytes of packet `i` taken alone, so
every offset it reads lies in `[104 * i, 104 * i + 104)`; and in every event it
pushes the counts are at most 4 and 8, the sizes of the two slot arrays, so every
slot index `j` below a count is below the size of its array. -/
theorem decode_reads_in_bounds (ids : EventSources) (data : List Byte) :
    (∀ fuel, decode ids fuel data ≠ Except.error Stop.out_of_bounds) ∧
    (∀ i, i < data.length / 104 →
      ∃ r, parse_packet ids data (i * motion_packet_size) = Except.ok r ∧
        parse_packet ids ((data.drop (104 * i)).take 104) 0 = Except.ok r ∧
        ∀ ev, r = some ev →
          ev.imu_entries_num ≤ ev.imu_packets.length ∧ ev.imu_packets.length = 4 ∧
          ev.non_imu_entries_num ≤ ev.non_imu_packets.length ∧
          ev.non_imu_packets.length = 8) := by
  constructor
  · intro fuel
    unfold decode
    rw [motion_packet_size_eq]
    simp only []
    split_ifs with hp
    · apply packet_loop_in_bounds
      have h1 : data.length / 104 % 65536 ≤ data.length / 104 := Nat.mod_le _ _
      have h2 : data.length / 104 * 104 ≤ data.length := Nat.div_mul_le_self _ _
      have h3 := Nat.mul_le_mul_right 104 h1
      omega
    · intro h
      cases h
  · intro i hi
    have h2 : data.length / 104 * 104 ≤ data.length := Nat.div_mul_le_self _ _
    have h3 : (i + 1) * 104 ≤ data.length / 104 * 104 := Nat.mul_le_mul_right 104 hi
    obtain ⟨r, hr⟩ := parse_packet_ok ids data (i * motion_packet_size) (by
      rw [motion_packet_size_eq]; omega)
    refine ⟨r, hr, by rw [← parse_packet_slice]; exact hr, ?_⟩
    intro ev hev
    subst hev
    obtain ⟨_, h4, h8, hl4, hl8, _⟩ := parse_packet_slots ids data _ ev hr
    exact ⟨by omega, hl4, by omega, hl8⟩

theorem decode_reads_in_bounds_witness :
    ∃ r, parse_packet ⟨1, 2⟩ gyroPacket (0 * motion_packet_size) = Except.ok r ∧
      parse_packet ⟨1, 2⟩ ((gyroPacket.drop (104 * 0)).take 104) 0 = Except.ok r ∧
      ∀ ev, r = some ev →
        ev.imu_entries_num ≤ ev.imu_packets.length ∧ ev.imu_packets.length = 4 ∧
        ev.non_imu_entries_num ≤ ev.non_imu_packets.length ∧
        ev.non_imu_packets.length = 8 :=
  (decode_reads_in_bounds ⟨1, 2⟩ gyroPacket).2 0 (by decide)

/-! ## Packet decoder: concatenation -/

theorem packetEvent_append_left (ids : EventSources) (a b : List Byte) (i : Nat)
    (hi : (i + 1) * 104 ≤ a.length) :
    packetEvent ids (a ++ b) i = packetEvent ids a i := by
  unfold packetEvent
  rw [parse_packet_window ids (a ++ b) a (i * motion_packet_size) (i * motion_packet_size)]
  intro k hk
  rw [motion_packet_size_eq]
  exact List.getElem?_append_left (by omega)

theorem packetEvent_append_right (ids : EventSources) (a b : List Byte) (q i : Nat)
    (hq : a.length = 104 * q) :
    packetEvent ids (a ++ b) (q + i) = packetEvent ids b i := by
  unfold packetEvent
  rw [parse_packet_window ids (a ++ b) b ((q + i) * motion_packet_size)
    (i * motion_packet_size)]
  intro k hk
  rw [motion_packet_size_eq, List.getElem?_append_right (by rw [hq]; nlinarith)]
  congr 1
  rw [hq]
  have : (q + i) * 104 = 104 * q + i * 104 := by ring
  omega

theorem filterMap_eq_of_mem {α β : Type} (f g : α → Option β) (l : List α)
    (h : ∀ x ∈ l, f x = g x) : l.filterMap f = l.filterMap g := by
  induction l with
  | nil => rfl
  | cons x xs ih =>
    rw [List.filterMap_cons, List.filterMap_cons, h x (List.mem_cons_self x xs),
      ih (fun y hy => h y (List.mem_cons_of_mem x hy))]

/-- C20: for a buffer `a` whose length is a multiple of 104 and a buffer `b` with
`floor((len a + len b) / 104) < 256`, a run of `decode` with enough fuel returns on
`a`, on `b` and on `a ++ b`, and the events of `a ++ b` are those of `a` followed by
those of `b`; the loop body on packet `i` of any buffer gives what it gives on the
104 bytes of that packet taken alone. -/
theorem decode_append (ids : EventSources) (fuel : Nat) (a b : List Byte)
    (ha : a.length % 104 = 0) (hn : (a.length + b.length) / 104 < 256)
    (hf : (a.length + b.length) / 104 < fuel) :
    (∃ va vb, decode ids fuel a = Except.ok va ∧ decode ids fuel b = Except.ok vb ∧
      decode ids fuel (a ++ b) = Except.ok (va ++ vb)) ∧
    (∀ (data : List Byte) (i : Nat), parse_packet ids data (i * motion_packet_size) =
      parse_packet ids ((data.drop (104 * i)).take 104) 0) := by
  refine ⟨?_, parse_packet_slice ids⟩
  have hq : a.length = 104 * (a.length / 104) := by omega
  have hsum : (a ++ b).length / 104 = a.length / 104 + b.length / 104 := by
    rw [List.length_append]; omega
  have hab : (a.length + b.length) / 104 = a.length / 104 + b.length / 104 := by
    rw [← List.length_append]; exact hsum
  refine ⟨_, _, decode_returns ids fuel a (by omega) (by omega),
    decode_returns ids fuel b (by omega) (by omega), ?_⟩
  rw [decode_returns ids fuel (a ++ b) (by rw [hsum]; omega) (by rw [hsum]; omega), hsum,
    List.range_add, List.filterMap_append, List.filterMap_map]
  congr 2
  · apply filterMap_eq_of_mem
    intro i hi
    have hi1 : i < a.length / 104 := List.mem_range.mp hi
    exact packetEvent_append_left ids a b i (by omega)
  · apply filterMap_eq_of_mem
    intro i _
    exact packetEvent_append_right ids a b (a.length / 104) i hq

theorem decode_append_witness :
    ∃ va vb, decode ⟨1, 2⟩ 3 gyroPacket = Except.ok va ∧
      decode ⟨1, 2⟩ 3 badHeaderPacket = Except.ok vb ∧
      decode ⟨1, 2⟩ 3 (gyroPacket ++ badHeaderPacket) = Except.ok (va ++ vb) :=
  (decode_append ⟨1, 2⟩ 3 gyroPacket badHeaderPacket (by decide) (by decide) (by decide)).1

/-! ## Power controller: outputs and state -/

theorem flip_step (dev : Transport) (k : Call) (c c1 : Ctl) (u : Unit)
    (hv : valid c.state = true)
    (h1 : c.state ≠ mm_idle → outputEnabled MMPWR c.trace = true)
    (h2 : c.state = mm_eventing ∨ c.state = mm_full_load →
      outputEnabled MM_ACTIVATE c.trace = true)
    (hk : k.flips c.state = true) (hrun : k.run dev c = (Except.ok u, c1)) :
    valid c1.state = true ∧
    (c1.state ≠ mm_idle → outputEnabled MMPWR c1.trace = true) ∧
    (c1.state = mm_eventing ∨ c1.state = mm_full_load →
      outputEnabled MM_ACTIVATE c1.trace = true) := by
  obtain ⟨s, tr⟩ := c
  rw [valid_iff] at hv
  simp only at hv h1 h2 hk
  rcases hv with rfl | rfl | rfl | rfl <;> rcases k with b | b <;> cases b <;>
    simp [Call.flips, mm_idle, mm_streaming, mm_eventing, mm_full_load] at hk <;>
    simp [Call.run, toggle_motion_module_power, toggle_motion_module_events, impose,
      enter_state, set_control, perform_and_send_monitor_command, bind_apply, pure_apply,
      getState, setState, sleep_for, raise, requested_state, valid, mm_idle, mm_streaming,
      mm_eventing, mm_full_load, mm_video_output, mm_events_output] at hrun <;>
    (try split_ifs at hrun) <;> (try simp at hrun) <;>
    (try split_ifs at hrun) <;> (try simp at hrun) <;>
    (subst hrun
     simp_all [outputEnabled, valid, List.foldl_append, MMPWR, MM_ACTIVATE, mm_idle,
       mm_streaming, mm_eventing, mm_full_load])

theorem runFlips_outputs (dev : Transport) (calls : List Call) :
    ∀ c c1 : Ctl, valid c.state = true →
      (c.state ≠ mm_idle → outputEnabled MMPWR c.trace = true) →
      (c.state = mm_eventing ∨ c.state = mm_full_load →
        outputEnabled MM_ACTIVATE c.trace = true) →
      runFlips dev calls c = some c1 →
      valid c1.state = true ∧
      (c1.state ≠ mm_idle → outputEnabled MMPWR c1.trace = true) ∧
      (c1.state = mm_eventing ∨ c1.state = mm_full_load →
        outputEnabled MM_ACTIVATE c1.trace = true) := by
  induction calls with
  | nil =>
    intro c c1 hv h1 h2 hrun
    have hc : c = c1 := by simpa [runFlips] using hrun
    subst hc
    exact ⟨hv, h1, h2⟩
  | cons k ks ih =>
    intro c c1 hv h1 h2 hrun
    unfold runFlips at hrun
    cases hk : k.flips c.state with
    | false => rw [hk] at hrun; simp at hrun
    | true =>
      rw [hk] at hrun
      simp only [if_true] at hrun
      rcases hstep : k.run dev c with ⟨res, c2⟩
      rw [hstep] at hrun
      cases res with
      | error e => simp at hrun
      | ok u =>
        simp only at hrun
        obtain ⟨hv2, h12, h22⟩ := flip_step dev k c c2 u hv h1 h2 hk hstep
        exact ih c2 c1 hv2 h12 h22 hrun

/-- C17, as amended: starting from the constructed controller (Idle, nothing sent),
after any finite sequence of successful calls each of which changes the setting
that the state records for its own output, VideoOutput is enabled whenever the
state is not Idle, and EventsOutput is enabled whenever the state is Eventing or
FullLoad. -/
theorem outputs_after_flips (dev : Transport) (calls : List Call) (c : Ctl)
    (hrun : runFlips dev calls initial = some c) :
    (c.state ≠ mm_idle → outputEnabled MMPWR c.trace = true) ∧
    (c.state = mm_eventing ∨ c.state = mm_full_load →
      outputEnabled MM_ACTIVATE c.trace = true) :=
  (runFlips_outputs dev calls initial c (by decide) (fun h => absurd rfl h)
    (fun h => by rcases h with h | h <;> exact absurd h (by decide)) hrun).2

theorem outputs_after_flips_witness :
    runFlips reliable [Call.events true, Call.power true] initial
      = some { state := mm_full_load,
               trace := [HwAction.monitor_command MMPWR 1 1,
                         HwAction.monitor_command MM_ACTIVATE 1 1] } ∧
    outputEnabled MMPWR [HwAction.monitor_command MMPWR 1 1,
                         HwAction.monitor_command MM_ACTIVATE 1 1] = true ∧
    outputEnabled MM_ACTIVATE [HwAction.monitor_command MMPWR 1 1,
                               HwAction.monitor_command MM_ACTIVATE 1 1] = true :=
  ⟨rfl,
   (outputs_after_flips reliable [Call.events true, Call.power true]
      { state := mm_full_load,
        trace := [HwAction.monitor_command MMPWR 1 1,
                  HwAction.monitor_command MM_ACTIVATE 1 1] } rfl).1 (by decide),
   (outputs_after_flips reliable [Call.events true, Call.power true]
      { state := mm_full_load,
        trace := [HwAction.monitor_command MMPWR 1 1,
                  HwAction.monitor_command MM_ACTIVATE 1 1] } rfl).2 (Or.inr rfl)⟩

/-- C17, counterexample: enabling and then disabling the events output, both calls
succeeding, ends in the state Idle with VideoOutput still enabled, while the
constructed controller is in the state Idle with VideoOutput disabled: the state
does not determine the outputs, and Idle does not mean that both are disabled. -/
theorem idle_with_video_enabled :
    runCallsOk reliable [] initial = some initial ∧
    initial.state = mm_idle ∧ outputEnabled MMPWR initial.trace = false ∧
    runCallsOk reliable [Call.events true, Call.events false] initial
      = some { state := mm_idle,
               trace := [HwAction.monitor_command MMPWR 1 1,
                         HwAction.monitor_command MM_ACTIVATE 1 1,
                         HwAction.monitor_command MM_ACTIVATE 0 1] } ∧
    outputEnabled MMPWR [HwAction.monitor_command MMPWR 1 1,
                         HwAction.monitor_command MM_ACTIVATE 1 1,
                         HwAction.monitor_command MM_ACTIVATE 0 1] = true :=
  ⟨rfl, rfl, rfl, rfl, rfl⟩

/-- C19, at a failing input: in the state Streaming, a request to enable the video
output succeeds, sends nothing and leaves the controller in the state Eventing;
called twice on the constructed controller, `toggle_motion_module_power(true)` ends
in Eventing although no command for the events output was ever sent. -/
theorem video_enable_in_streaming_enters_eventing :
    (∀ (dev : Transport) (tr : List HwAction),
      impose dev mm_video_output true { state := mm_streaming, trace := tr }
        = (Except.ok (), { state := mm_eventing, trace := tr })) ∧
    runCallsOk reliable [Call.power true, Call.power true] initial
      = some { state := mm_eventing,
               trace := [HwAction.monitor_command MMPWR 1 1, HwAction.sleep_for 2000] } ∧
    outputEnabled MM_ACTIVATE [HwAction.monitor_command MMPWR 1 1, HwAction.sleep_for 2000]
      = false := by
  refine ⟨?_, rfl, rfl⟩
  intro dev tr
  simp [impose, enter_state, bind_apply, pure_apply, getState, setState, requested_state,
    valid, mm_idle, mm_streaming, mm_eventing, mm_full_load, mm_video_output]

end MotionModule
